import Mathlib

/-!
# Optimal bounding box: `evolution`, `post_processing`, `find_obb`

A shallow embedding of `Optimal_bounding_box/include/CGAL/Optimal_bounding_box/obb.h`.

Coefficients are rationals (exact arithmetic) instead of `double`; the stall test of
`evolution` is given in double arithmetic as well (`stalled_double`).  An Eigen matrix is a
run-time shape together with its coefficient access.  The collaborators of `evolution`
that live in `population.h` and `optimization_algorithms.h` (population, genetic step,
simplex refinement, fitness map) are parameters of the model.
-/

set_option autoImplicit false

namespace CGAL.Optimal_bounding_box

/-! ## Data model -/

/-- An Eigen matrix: `rows()`, `cols()` and `coeff(i, j)`. -/
structure Mat where
  rows : Nat
  cols : Nat
  coeff : Nat → Nat → ℚ

/-- Eigen `A.transpose()`. -/
def Mat.transpose (A : Mat) : Mat :=
  { rows := A.cols, cols := A.rows, coeff := fun i j => A.coeff j i }

/-- Eigen matrix product `A * B`. -/
def Mat.mul (A B : Mat) : Mat :=
  { rows := A.rows, cols := B.cols,
    coeff := fun i j => ∑ k in Finset.range A.cols, A.coeff i k * B.coeff k j }

/-- Eigen `A.resize(r, c)`: new storage, coefficients not kept. -/
def Mat.resize (_A : Mat) (r c : Nat) : Mat :=
  { rows := r, cols := c, coeff := fun _ _ => 0 }

/-- Assignment `A.coeffRef(i, j) = v`. -/
def Mat.coeffRef_assign (A : Mat) (i j : Nat) (v : ℚ) : Mat :=
  { A with coeff := fun a b => if a = i ∧ b = j then v else A.coeff a b }

/-- A point `K::Point_3` with coordinates `x()`, `y()`, `z()`. -/
structure Point where
  x : ℚ
  y : ℚ
  z : ℚ
deriving DecidableEq

/-- Modelled from the spec: how a call ends.  The macro `CGAL_assertion` is defined in
another header; a failed assertion is reported at once and is fatal for the call.
`unmodelled` marks the one run that leaves rational arithmetic (the bounding box of an
empty range has infinite bounds). -/
inductive Status where
  | ok
  | assertion_failed
  | unmodelled
deriving DecidableEq

/-! ## `evolution` -/

/-- The collaborators of `evolution` declared in `population.h` and
`optimization_algorithms.h`, taken as parameters.  `Pop` is the state of a
`Population<Vertex>` (it may carry the state of the random generator). -/
structure Collaborators (Pop : Type) where
  /-- Constructor `Population<Vertex> pop(n)`. -/
  make_population : Nat → Pop
  /-- Member function `pop.size()`. -/
  size : Pop → Nat
  /-- Call `genetic_algorithm(pop, points)`. -/
  genetic_algorithm : Pop → Mat → Pop
  /-- Call `nelder_mead(pop[s], points, iterations)`, which refines member `s` in place. -/
  nelder_mead : Pop → Nat → Mat → Nat → Pop
  /-- Call `Fitness_map(pop, points).get_best_fitness_value(points)`. -/
  get_best_fitness_value : Pop → Mat → ℚ
  /-- Call `Fitness_map(pop, points).get_best()`. -/
  get_best : Pop → Mat → Mat

/-- Local `nelder_mead_iterations = 20`. -/
def nelder_mead_iterations : Nat := 20

/-- Local `tolerance = 1e-2`. -/
def tolerance : ℚ := 1 / 100

/-- The test `abs(difference) < tolerance * new_fit_value` with
`difference = new_fit_value - prev_fit_value`, the difference and the product taken exactly;
inside namespace `CGAL` the call `abs` is the absolute value `CGAL::abs`.  The same test with
every operation rounded to `double` is `stalled_double`. -/
def stalled (prev_fit_value new_fit_value : ℚ) : Prop :=
  |new_fit_value - prev_fit_value| < tolerance * new_fit_value

instance (p n : ℚ) : Decidable (stalled p n) := by
  unfold stalled; infer_instance

/-- The locals of `evolution` that persist over the loop, and `generations`, the number of
loop bodies entered so far. -/
structure EvolutionState (Pop : Type) where
  pop : Pop
  prev_fit_value : ℚ
  new_fit_value : ℚ
  stale : Nat
  generations : Nat

/-- The inner loop `for s < pop.size(): nelder_mead(pop[s], points, nelder_mead_iterations)`. -/
def refine_population {Pop : Type} (c : Collaborators Pop) (points : Mat) (pop : Pop) : Pop :=
  (List.range (c.size pop)).foldl (fun p s => c.nelder_mead p s points nelder_mead_iterations) pop

/-- One generation on the population: the genetic step, then the refinement of every member. -/
def generation {Pop : Type} (c : Collaborators Pop) (points : Mat) (pop : Pop) : Pop :=
  refine_population c points (c.genetic_algorithm pop points)

/-- The loop body up to and including the update of `stale`. -/
def generation_body {Pop : Type} (c : Collaborators Pop) (points : Mat)
    (s : EvolutionState Pop) : EvolutionState Pop :=
  let pop1 := c.genetic_algorithm s.pop points
  let pop2 := refine_population c points pop1
  let new_fit_value := c.get_best_fitness_value pop2 points
  let stale := if stalled s.prev_fit_value new_fit_value then s.stale + 1 else s.stale
  { pop := pop2, prev_fit_value := s.prev_fit_value, new_fit_value := new_fit_value,
    stale := stale, generations := s.generations + 1 }

/-- The loop `for (t = 0; t < max_generations; ++t)`; the first argument is the number of
iterations still allowed, `max_generations - t`. -/
def evolution_loop {Pop : Type} (c : Collaborators Pop) (points : Mat) :
    Nat → EvolutionState Pop → EvolutionState Pop
  | 0, s => s
  | n + 1, s =>
    let s1 := generation_body c points s
    if s1.stale = 5 then s1
    else evolution_loop c points n { s1 with prev_fit_value := s1.new_fit_value }

/-- The state on entry to the loop: `Population<Vertex> pop(50)`, both fitness values and
`stale` zero. -/
def initial_state {Pop : Type} (c : Collaborators Pop) : EvolutionState Pop :=
  { pop := c.make_population 50, prev_fit_value := 0, new_fit_value := 0, stale := 0,
    generations := 0 }

/-- The state in which the loop of `evolution` is left. -/
def evolution_run {Pop : Type} (c : Collaborators Pop) (points : Mat) (max_generations : Nat) :
    EvolutionState Pop :=
  evolution_loop c points max_generations (initial_state c)

/-- The function `evolution(R, points, max_generations)`: the status and the final `R`. -/
def evolution {Pop : Type} (c : Collaborators Pop) (R points : Mat) (max_generations : Nat) :
    Status × Mat :=
  if ¬ 3 ≤ points.rows then (Status.assertion_failed, R)
  else if ¬ points.cols = 3 then (Status.assertion_failed, R)
  else if ¬ R.rows = 3 then (Status.assertion_failed, R)
  else if ¬ R.cols = 3 then (Status.assertion_failed, R)
  else (Status.ok, c.get_best (evolution_run c points max_generations).pop points)

/-! ### Fitness sequences -/

/-- The best fitness of generation `t` (counted from 0) of a run that gets that far. -/
def fitness_seq {Pop : Type} (c : Collaborators Pop) (points : Mat) (t : Nat) : ℚ :=
  c.get_best_fitness_value ((generation c points)^[t + 1] (c.make_population 50)) points

/-- The value of `prev_fit_value` when generation `t` is entered, for the fitness sequence `f`. -/
def prev_of (f : Nat → ℚ) : Nat → ℚ
  | 0 => 0
  | t + 1 => f t

/-- Generation `t` passes the stall test. -/
def stalled_generation (f : Nat → ℚ) (t : Nat) : Prop :=
  stalled (prev_of f t) (f t)

instance (f : Nat → ℚ) (t : Nat) : Decidable (stalled_generation f t) := by
  unfold stalled_generation; infer_instance

/-- The number of generations among the first `g` that pass the stall test. -/
def stall_count (f : Nat → ℚ) : Nat → Nat
  | 0 => 0
  | g + 1 => if stalled_generation f g then stall_count f g + 1 else stall_count f g

/-- The number of generations executed under the cap `n`: a further generation is run as
long as the number of stalls has not reached 5. -/
def executed (f : Nat → ℚ) : Nat → Nat
  | 0 => 0
  | n + 1 => if stall_count f (executed f n) = 5 then executed f n else executed f n + 1

/-- A population scripted to show the best fitness `f t` in generation `t`: its state is the
number of genetic steps taken. -/
def scripted (f : Nat → ℚ) : Collaborators Nat where
  make_population := fun _ => 0
  size := fun _ => 50
  genetic_algorithm := fun n _ => n + 1
  nelder_mead := fun n _ _ _ => n
  get_best_fitness_value := fun n _ => f (n - 1)
  get_best := fun _ _ => { rows := 3, cols := 3, coeff := fun i j => if i = j then 1 else 0 }

/-! ## `post_processing` -/

/-- Box `CGAL::Bbox_3`: lower and upper bound on each axis. -/
structure Bbox_3 where
  xmin : ℚ
  ymin : ℚ
  zmin : ℚ
  xmax : ℚ
  ymax : ℚ
  zmax : ℚ

/-- Modelled from the spec: the box of one point (`Bbox_3.h` is another header of the
library); for a kernel on `double` its bounds are the coordinates themselves. -/
def Point.bbox (p : Point) : Bbox_3 :=
  { xmin := p.x, ymin := p.y, zmin := p.z, xmax := p.x, ymax := p.y, zmax := p.z }

/-- Modelled from the spec: `Bbox_3::operator+=`, the componentwise min of the lower and
max of the upper bounds. -/
def Bbox_3.add (b c : Bbox_3) : Bbox_3 :=
  { xmin := min b.xmin c.xmin, ymin := min b.ymin c.ymin, zmin := min b.zmin c.zmin,
    xmax := max b.xmax c.xmax, ymax := max b.ymax c.ymax, zmax := max b.zmax c.zmax }

/-- Modelled from the spec: `bbox_3(begin, end)` of `Bbox_3.h`, the box "derived from
componentwise min/max": the box of the first point, extended by every further point.
The empty range has no box with rational bounds. -/
def bbox_3 : List Point → Option Bbox_3
  | [] => none
  | p :: ps => some (ps.foldl (fun res q => res.add q.bbox) p.bbox)

/-- Cuboid `K::Iso_cuboid_3`, held as its lowest and highest corner. -/
structure Iso_cuboid_3 where
  pmin : Point
  pmax : Point

/-- Modelled from the spec: the constructor `Iso_cuboid_3(bbox)`. -/
def Iso_cuboid_3.of_bbox (b : Bbox_3) : Iso_cuboid_3 :=
  { pmin := ⟨b.xmin, b.ymin, b.zmin⟩, pmax := ⟨b.xmax, b.ymax, b.zmax⟩ }

/-- Modelled from the spec: `ic[i]`, the `i`-th corner of the cuboid (`Iso_cuboid_3.h` is
another header of the library), in the order of the library: the lower face counter-clockwise
from `pmin`, then the upper face. -/
def Iso_cuboid_3.vertex (ic : Iso_cuboid_3) (i : Nat) : Point :=
  match i % 8 with
  | 0 => ic.pmin
  | 1 => ⟨ic.pmax.x, ic.pmin.y, ic.pmin.z⟩
  | 2 => ⟨ic.pmax.x, ic.pmax.y, ic.pmin.z⟩
  | 3 => ⟨ic.pmin.x, ic.pmax.y, ic.pmin.z⟩
  | 4 => ⟨ic.pmin.x, ic.pmax.y, ic.pmax.z⟩
  | 5 => ⟨ic.pmin.x, ic.pmin.y, ic.pmax.z⟩
  | 6 => ⟨ic.pmax.x, ic.pmin.y, ic.pmax.z⟩
  | _ => ic.pmax

/-- How the template argument `Matrix_fixed` stores its coefficients: sized 8 x 3 at compile
time, or sized at run time. -/
inductive Storage where
  | preallocated
  | dynamic
deriving DecidableEq

/-- The declaration `Matrix_fixed aabb;`: 8 x 3 for a preallocated type, 0 x 0 for a dynamic
one.  The coefficients are indeterminate in the source; the model takes 0. -/
def Storage.default_constructed : Storage → Mat
  | Storage.preallocated => { rows := 8, cols := 3, coeff := fun _ _ => 0 }
  | Storage.dynamic => { rows := 0, cols := 0, coeff := fun _ _ => 0 }

/-- Step 1 of `post_processing`: `rotated_points = points * R.transpose()`. -/
def rotate_points (points R : Mat) : Mat :=
  points.mul R.transpose

/-- The loop that copies the rows of `rotated_points` into `v_points`. -/
def to_v_points (rotated_points : Mat) : List Point :=
  (List.range rotated_points.rows).map fun i =>
    Point.mk (rotated_points.coeff i 0) (rotated_points.coeff i 1) (rotated_points.coeff i 2)

/-- The declaration of `aabb` with its sanity resize, then the loop that writes the 8 corners
`ic[i]` into its rows. -/
def fill_aabb (storage : Storage) (ic : Iso_cuboid_3) : Mat :=
  let aabb := storage.default_constructed
  let aabb := if aabb.cols ≠ 3 ∧ aabb.rows ≠ 8 then aabb.resize 8 3 else aabb
  (List.range 8).foldl
    (fun a i =>
      ((a.coeffRef_assign i 0 (ic.vertex i).x).coeffRef_assign i 1 (ic.vertex i).y).coeffRef_assign
        i 2 (ic.vertex i).z)
    aabb

/-- The function `post_processing(points, R, obb)`: the status and the final `obb`. -/
def post_processing (storage : Storage) (points R obb : Mat) : Status × Mat :=
  if ¬ points.cols = 3 then (Status.assertion_failed, obb)
  else if ¬ R.rows = 3 then (Status.assertion_failed, obb)
  else if ¬ R.cols = 3 then (Status.assertion_failed, obb)
  else if ¬ obb.rows = 8 then (Status.assertion_failed, obb)
  else if ¬ obb.cols = 3 then (Status.assertion_failed, obb)
  else
    let rotated_points := rotate_points points R
    let v_points := to_v_points rotated_points
    match bbox_3 v_points with
    | none => (Status.unmodelled, obb)
    | some bbox =>
      let ic := Iso_cuboid_3.of_bbox bbox
      let aabb := fill_aabb storage ic
      (Status.ok, aabb.mul R)

/-! ## `fill_matrix` and `find_obb` -/

/-- The function `fill_matrix(v_points, points_mat)`. -/
def fill_matrix (v_points : List Point) (points_mat : Mat) : Mat :=
  (List.range v_points.length).foldl
    (fun m i =>
      let p := v_points.getD i ⟨0, 0, 0⟩
      ((m.coeffRef_assign i 0 p.x).coeffRef_assign i 1 p.y).coeffRef_assign i 2 p.z)
    (points_mat.resize v_points.length 3)

/-- The call `v.resize(n)` of `std::vector`: cut to `n` elements, or padded with
default-constructed points (indeterminate in the source; the model takes the origin). -/
def vector_resize (v : List Point) (n : Nat) : List Point :=
  v.take n ++ List.replicate (n - v.length) ⟨0, 0, 0⟩

/-- The function `find_obb(points, obb_points, use_ch)`: the status and the final `obb_points`.
The convex hull routine `convex_hull_3` is a parameter. -/
def find_obb {Pop : Type} (c : Collaborators Pop) (convex_hull_3 : List Point → List Point)
    (points obb_points : List Point) (use_ch : Bool) : Status × List Point :=
  if ¬ 3 ≤ points.length then (Status.assertion_failed, obb_points)
  else
    let obb_points := if obb_points.length ≠ 8 then vector_resize obb_points 8 else obb_points
    if ¬ obb_points.length = 8 then (Status.assertion_failed, obb_points)
    else
      let points_mat : Mat := { rows := 0, cols := 0, coeff := fun _ _ => 0 }
      let points_mat :=
        if use_ch then fill_matrix (convex_hull_3 points) points_mat
        else fill_matrix points points_mat
      let R : Mat := { rows := 3, cols := 3, coeff := fun _ _ => 0 }
      match evolution c R points_mat 100 with
      | (Status.ok, R) =>
        let obb : Mat := { rows := 8, cols := 3, coeff := fun _ _ => 0 }
        match post_processing Storage.preallocated points_mat R obb with
        | (Status.ok, obb) =>
          (Status.ok,
            (List.range 8).foldl
              (fun v i => v.set i (Point.mk (obb.coeff i 0) (obb.coeff i 1) (obb.coeff i 2)))
              obb_points)
        | (st, _) => (st, obb_points)
      | (st, _) => (st, obb_points)

/-! ## The stall test in double precision -/

/-- A value of the C++ type `double` (IEEE 754 binary64): `finite q` is the double of value
`q`, and the operations produce their results through `Double.of_rat`.  The sign of a zero
is not kept: no operation of the stall test tells the two zeros apart. -/
inductive Double where
  | finite (q : ℚ)
  | infinity (negative : Bool)
  | nan
deriving DecidableEq

/-- The integer nearest to `y`, a tie going to the even one. -/
def round_half_even (y : ℚ) : ℤ :=
  if y - ⌊y⌋ < 1 / 2 then ⌊y⌋
  else if 1 / 2 < y - ⌊y⌋ then ⌊y⌋ + 1
  else if ⌊y⌋ % 2 = 0 then ⌊y⌋ else ⌊y⌋ + 1

/-- The exponent `e` of the binade `[2^e, 2^(e+1))` of `|x|`, not below `-1022`, the exponent
of the subnormal numbers. -/
def binade (x : ℚ) : ℤ := max (Int.log 2 |x|) (-1022)

/-- The spacing of the doubles around `x`: 53 significant bits. -/
def ulp (x : ℚ) : ℚ := (2 : ℚ) ^ (binade x - 52)

/-- The multiple of `ulp x` nearest to `x`, ties to even: rounding to nearest of binary64
before the check for overflow. -/
def round_to_double (x : ℚ) : ℚ := round_half_even (x / ulp x) * ulp x

/-- The double a real result is rounded to: an infinity when the rounded magnitude reaches
`2^1024`. -/
def Double.of_rat (x : ℚ) : Double :=
  if (2 : ℚ) ^ (1024 : ℤ) ≤ |round_to_double x| then Double.infinity (decide (x < 0))
  else Double.finite (round_to_double x)

/-- Subtraction `a - b` of doubles. -/
def Double.sub : Double → Double → Double
  | Double.finite a, Double.finite b => Double.of_rat (a - b)
  | Double.finite _, Double.infinity s => Double.infinity (!s)
  | Double.infinity s, Double.finite _ => Double.infinity s
  | Double.infinity s, Double.infinity t => if s = t then Double.nan else Double.infinity s
  | _, _ => Double.nan

/-- Multiplication `a * b` of doubles. -/
def Double.mul : Double → Double → Double
  | Double.finite a, Double.finite b => Double.of_rat (a * b)
  | Double.finite a, Double.infinity s =>
    if a = 0 then Double.nan else Double.infinity (xor s (decide (a < 0)))
  | Double.infinity s, Double.finite b =>
    if b = 0 then Double.nan else Double.infinity (xor s (decide (b < 0)))
  | Double.infinity s, Double.infinity t => Double.infinity (xor s t)
  | _, _ => Double.nan

/-- The absolute value `abs(a)` of a double. -/
def Double.abs : Double → Double
  | Double.finite a => Double.finite |a|
  | Double.infinity _ => Double.infinity false
  | Double.nan => Double.nan

/-- The comparison `a < b` of doubles; false when an operand is not a number. -/
def Double.lt : Double → Double → Bool
  | Double.finite a, Double.finite b => decide (a < b)
  | Double.finite _, Double.infinity s => !s
  | Double.infinity s, Double.finite _ => s
  | Double.infinity s, Double.infinity t => s && !t
  | _, _ => false

/-- Local `double tolerance = 1e-2`: the double nearest to 1/100. -/
def tolerance_double : Double := Double.of_rat tolerance

/-- The test `abs(difference) < tolerance * new_fit_value` with
`difference = new_fit_value - prev_fit_value`, every operation in double arithmetic. -/
def stalled_double (prev_fit_value new_fit_value : Double) : Bool :=
  ((new_fit_value.sub prev_fit_value).abs).lt (tolerance_double.mul new_fit_value)

/-- The locals `prev_fit_value` and `stale` of `evolution`, and the number of loop bodies
entered so far. -/
structure StallState where
  prev_fit_value : Double
  stale : Nat
  generations : Nat

/-- The loop of `evolution` in double arithmetic, driven by the sequence `f` of the values
`new_fit_value` takes: generation `t` computes the best fitness `f t`.  The first argument
is the number of iterations still allowed. -/
def evolution_loop_double (f : Nat → Double) : Nat → StallState → StallState
  | 0, s => s
  | n + 1, s =>
    let new_fit_value := f s.generations
    let stale := if stalled_double s.prev_fit_value new_fit_value then s.stale + 1 else s.stale
    if stale = 5 then
      { prev_fit_value := s.prev_fit_value, stale := stale, generations := s.generations + 1 }
    else
      evolution_loop_double f n
        { prev_fit_value := new_fit_value, stale := stale, generations := s.generations + 1 }

/-- The state in which the loop is left, from `prev_fit_value = 0` and `stale = 0`. -/
def evolution_run_double (f : Nat → Double) (max_generations : Nat) : StallState :=
  evolution_loop_double f max_generations
    { prev_fit_value := Double.finite 0, stale := 0, generations := 0 }

/-- The value of `prev_fit_value` when generation `t` is entered, for the sequence `f`. -/
def prev_of_double (f : Nat → Double) : Nat → Double
  | 0 => Double.finite 0
  | t + 1 => f t

/-- The sequence `k * f_0, k * f_1, ...`, each product computed in double arithmetic. -/
def scaled_double (k : Double) (f : Nat → Double) : Nat → Double :=
  fun t => k.mul (f t)

/-- The sequence of doubles with the rational values `a`. -/
def double_sequence (a : Nat → ℚ) : Nat → Double :=
  fun t => Double.finite (a t)

/-- Rounding loses no range on `x` nor on `2^m * x`: `x` is 0, or both magnitudes are at
least `2^-1022`, the smallest normal double, and both round below `2^1024`. -/
def in_range_scaled (m : ℤ) (x : ℚ) : Prop :=
  x = 0 ∨ ((2 : ℚ) ^ (-1022 : ℤ) ≤ |x| ∧ (2 : ℚ) ^ (-1022 : ℤ) ≤ |(2 : ℚ) ^ m * x| ∧
    |round_to_double x| < (2 : ℚ) ^ (1024 : ℤ) ∧
    |round_to_double ((2 : ℚ) ^ m * x)| < (2 : ℚ) ^ (1024 : ℤ))

/-! ## Predicates of the statements -/

/-- The matrix `R` is 3 x 3 and orthonormal: `R * R^T = I`. -/
def orthonormal (R : Mat) : Prop :=
  R.rows = 3 ∧ R.cols = 3 ∧
    ∀ i, i < 3 → ∀ j, j < 3 → (R.mul R.transpose).coeff i j = if i = j then 1 else 0

/-- The box computed in step 2 of `post_processing`: the one of the rotated points. -/
def rotated_bbox (points R : Mat) : Option Bbox_3 :=
  bbox_3 (to_v_points (rotate_points points R))

/-- The combination of bounds of box `b` that takes the upper bound on the axes flagged. -/
def Bbox_3.corner (b : Bbox_3) (l : Bool × Bool × Bool) : Point :=
  ⟨if l.1 then b.xmax else b.xmin, if l.2.1 then b.ymax else b.ymin,
    if l.2.2 then b.zmax else b.zmin⟩

/-- On which axes row `k` of `aabb` takes the upper bound. -/
def corner_label (k : Fin 8) : Bool × Bool × Bool :=
  match k.val with
  | 0 => (false, false, false)
  | 1 => (true, false, false)
  | 2 => (true, true, false)
  | 3 => (false, true, false)
  | 4 => (false, true, true)
  | 5 => (false, false, true)
  | 6 => (true, false, true)
  | _ => (true, true, true)

/-- Row `i` of a matrix with 3 columns, as a point. -/
def Mat.row_point (A : Mat) (i : Nat) : Point :=
  ⟨A.coeff i 0, A.coeff i 1, A.coeff i 2⟩

/-- Row `i` of a matrix with 3 columns, as a vector of the space `Fin 3 → ℚ`. -/
def Mat.row_vec (A : Mat) (i : Nat) : Fin 3 → ℚ :=
  fun j => A.coeff i j

/-- The dot product of two vectors of the space. -/
def dot (u v : Fin 3 → ℚ) : ℚ :=
  u 0 * v 0 + u 1 * v 1 + u 2 * v 2

/-- The corners of the unit cube as a point matrix, in the order of a binary counter. -/
def unit_cube : List Point :=
  [⟨0, 0, 0⟩, ⟨0, 0, 1⟩, ⟨0, 1, 0⟩, ⟨0, 1, 1⟩, ⟨1, 0, 0⟩, ⟨1, 0, 1⟩, ⟨1, 1, 0⟩, ⟨1, 1, 1⟩]

/-- The matrix of `unit_cube`. -/
def unit_cube_mat : Mat :=
  fill_matrix unit_cube { rows := 0, cols := 0, coeff := fun _ _ => 0 }

/-- An output matrix of the right shape, 8 x 3. -/
def obb_slot : Mat := { rows := 8, cols := 3, coeff := fun _ _ => 0 }

/-- An output matrix of a wrong shape, 4 x 3, with coefficients to tell a write from none. -/
def short_slot : Mat := { rows := 4, cols := 3, coeff := fun _ _ => 7 }

/-- A point matrix with a single row. -/
def one_point_mat : Mat :=
  fill_matrix [⟨1, 2, 3⟩] { rows := 0, cols := 0, coeff := fun _ _ => 0 }

/-! ## Concrete inputs -/

/-- The 3 x 3 identity matrix. -/
def identity3 : Mat :=
  { rows := 3, cols := 3, coeff := fun i j => if i = j then 1 else 0 }

/-- Three points in general position. -/
def three_points : List Point := [⟨0, 0, 0⟩, ⟨1, 0, 0⟩, ⟨0, 1, 0⟩]

/-- The matrix of `three_points`. -/
def three_points_mat : Mat :=
  fill_matrix three_points { rows := 0, cols := 0, coeff := fun _ _ => 0 }

/-- A rotation about the z axis with rational coefficients (cosine 3/5, sine 4/5). -/
def tilt : Mat :=
  { rows := 3, cols := 3,
    coeff := fun i j =>
      match i, j with
      | 0, 0 => 3 / 5
      | 0, 1 => -4 / 5
      | 1, 0 => 4 / 5
      | 1, 1 => 3 / 5
      | 2, 2 => 1
      | _, _ => 0 }

/-- The constant fitness sequence 1. -/
def fitness_one : Nat → Double := fun _ => Double.finite 1

/-- A fitness sequence of two doubles just inside the tolerance: `0x1.fcdc28f5c28f6p-1`, then
`1.00390625` from the second generation on. -/
def fitness_step : Nat → Double
  | 0 => Double.finite (8951959790561526 / 2 ^ 53)
  | _ + 1 => Double.finite (257 / 256)

/-- A fitness sequence that stalls four times, then drops by half, then stalls again. -/
def fitness_drop : Nat → ℚ := fun t => if t < 5 then 100 else 50

/-- The fitness sequence of a degenerate cloud: volume 0 in every generation. -/
def fitness_zero : Nat → ℚ := fun _ => 0

/-! ## Lemmas on the loop of `evolution` -/

section evolution_lemmas

variable {Pop : Type} (c : Collaborators Pop) (points : Mat)

theorem evolution_loop_one (s : EvolutionState Pop) :
    evolution_loop c points 1 s =
      if (generation_body c points s).stale = 5 then generation_body c points s
      else { generation_body c points s with
             prev_fit_value := (generation_body c points s).new_fit_value } := by
  simp [evolution_loop]

theorem evolution_loop_succ (n : Nat) (s : EvolutionState Pop) (hs : s.stale ≠ 5) :
    evolution_loop c points (n + 1) s =
      if (evolution_loop c points n s).stale = 5 then evolution_loop c points n s
      else evolution_loop c points 1 (evolution_loop c points n s) := by
  induction n generalizing s with
  | zero => simp [evolution_loop, hs]
  | succ n ih =>
    by_cases h : (generation_body c points s).stale = 5
    · have e2 : evolution_loop c points (n + 1) s = generation_body c points s := by
        simp [evolution_loop, h]
      have e1 : evolution_loop c points (n + 1 + 1) s = generation_body c points s := by
        rw [evolution_loop]; simp [h]
      rw [e1, e2]; simp [h]
    · have e2 : evolution_loop c points (n + 1) s = evolution_loop c points n
          { generation_body c points s with
            prev_fit_value := (generation_body c points s).new_fit_value } := by
        rw [evolution_loop]; simp [h]
      have e1 : evolution_loop c points (n + 1 + 1) s = evolution_loop c points (n + 1)
          { generation_body c points s with
            prev_fit_value := (generation_body c points s).new_fit_value } := by
        rw [evolution_loop]; simp [h]
      rw [e1, e2]
      exact ih _ h

theorem evolution_run_succ (n : Nat) :
    evolution_run c points (n + 1) =
      if (evolution_run c points n).stale = 5 then evolution_run c points n
      else evolution_loop c points 1 (evolution_run c points n) := by
  unfold evolution_run
  exact evolution_loop_succ c points n (initial_state c) (by simp [initial_state])

/-- The invariant of the loop, in terms of the fitness sequence of the run. -/
theorem evolution_run_invariant (n : Nat) :
    (evolution_run c points n).generations = executed (fitness_seq c points) n ∧
    (evolution_run c points n).stale =
      stall_count (fitness_seq c points) (evolution_run c points n).generations ∧
    (evolution_run c points n).pop =
      (generation c points)^[(evolution_run c points n).generations] (c.make_population 50) ∧
    ((evolution_run c points n).stale ≠ 5 →
      (evolution_run c points n).prev_fit_value =
        prev_of (fitness_seq c points) (evolution_run c points n).generations) := by
  induction n with
  | zero => simp [evolution_run, evolution_loop, initial_state, executed, stall_count, prev_of]
  | succ n ih =>
    obtain ⟨hg, hst, hpop, hprev⟩ := ih
    rw [evolution_run_succ]
    by_cases h5 : (evolution_run c points n).stale = 5
    · have hx : stall_count (fitness_seq c points) (executed (fitness_seq c points) n) = 5 := by
        rw [← hg, ← hst]; exact h5
      rw [if_pos h5]
      refine ⟨?_, hst, hpop, ?_⟩
      · rw [executed, if_pos hx]; exact hg
      · intro hne; exact absurd h5 hne
    · have hx : ¬ stall_count (fitness_seq c points) (executed (fitness_seq c points) n) = 5 := by
        rw [← hg, ← hst]; exact h5
      have hp := hprev h5
      rw [if_neg h5]
      have hnew : (generation_body c points (evolution_run c points n)).new_fit_value =
          fitness_seq c points (evolution_run c points n).generations := by
        simp only [generation_body, fitness_seq, Function.iterate_succ_apply', ← hpop, generation]
      have hstale : (generation_body c points (evolution_run c points n)).stale =
          stall_count (fitness_seq c points) ((evolution_run c points n).generations + 1) := by
        have h0 : (generation_body c points (evolution_run c points n)).stale =
            if stalled (evolution_run c points n).prev_fit_value
                (generation_body c points (evolution_run c points n)).new_fit_value
            then (evolution_run c points n).stale + 1 else (evolution_run c points n).stale := rfl
        rw [h0, stall_count]
        unfold stalled_generation
        by_cases hs : stalled (evolution_run c points n).prev_fit_value
            (generation_body c points (evolution_run c points n)).new_fit_value
        · rw [if_pos hs, if_pos (by rw [← hp, ← hnew]; exact hs), ← hst]
        · rw [if_neg hs, if_neg (by rw [← hp, ← hnew]; exact hs), ← hst]
      have hgen : (generation_body c points (evolution_run c points n)).generations =
          (evolution_run c points n).generations + 1 := by
        simp only [generation_body]
      have hpop2 : (generation_body c points (evolution_run c points n)).pop =
          (generation c points)^[(evolution_run c points n).generations + 1]
            (c.make_population 50) := by
        simp only [generation_body, Function.iterate_succ_apply', ← hpop, generation]
      rw [evolution_loop_one]
      by_cases hb : (generation_body c points (evolution_run c points n)).stale = 5
      · rw [if_pos hb]
        refine ⟨?_, ?_, ?_, ?_⟩
        · rw [executed, if_neg hx, hgen, hg]
        · rw [hgen, ← hstale]
        · rw [hgen]; exact hpop2
        · intro hne; exact absurd hb hne
      · rw [if_neg hb]
        refine ⟨?_, ?_, ?_, ?_⟩
        · rw [executed, if_neg hx, hgen, hg]
        · rw [hgen, ← hstale]
        · rw [hgen]; exact hpop2
        · intro _
          rw [hgen, hnew]; rfl

end evolution_lemmas

/-! ### Facts on fitness sequences -/

theorem stall_count_le (f : Nat → ℚ) (g : Nat) : stall_count f g ≤ g := by
  induction g with
  | zero => simp [stall_count]
  | succ g ih => rw [stall_count]; split <;> omega

theorem executed_le (f : Nat → ℚ) (n : Nat) : executed f n ≤ n := by
  induction n with
  | zero => simp [executed]
  | succ n ih => rw [executed]; split <;> omega

theorem executed_mono_succ (f : Nat → ℚ) (n : Nat) : executed f n ≤ executed f (n + 1) := by
  rw [executed]; split <;> omega

theorem executed_mono (f : Nat → ℚ) {m n : Nat} (h : m ≤ n) : executed f m ≤ executed f n := by
  induction h with
  | refl => exact le_refl _
  | step _ ih => exact le_trans ih (executed_mono_succ f _)

/-- When every prefix up to `n` has fewer than 5 stalls, all `n` generations are executed. -/
theorem executed_eq_of_forall (f : Nat → ℚ) (n : Nat)
    (h : ∀ g, g < n → stall_count f g ≠ 5) : executed f n = n := by
  induction n with
  | zero => simp [executed]
  | succ n ih =>
    have hn := ih (fun g hg => h g (by omega))
    rw [executed, hn, if_neg (h n (by omega))]

theorem stall_count_executed_le (f : Nat → ℚ) (n : Nat) : stall_count f (executed f n) ≤ 5 := by
  induction n with
  | zero => simp [executed, stall_count]
  | succ n ih =>
    rw [executed]
    split
    · exact ih
    · rename_i hne
      rw [stall_count]
      split <;> omega

theorem fitness_seq_scripted (f : Nat → ℚ) (points : Mat) (t : Nat) :
    fitness_seq (scripted f) points t = f t := by
  have hgen : ∀ n : Nat, generation (scripted f) points n = n + 1 := by
    intro n
    have hfold : ∀ (l : List Nat) (m : Nat),
        l.foldl (fun p s => (scripted f).nelder_mead p s points nelder_mead_iterations) m = m := by
      intro l
      induction l with
      | nil => intro m; rfl
      | cons a l ih => intro m; simp only [List.foldl_cons]; exact ih m
    simp only [generation, refine_population]
    rw [hfold]; rfl
  have hit : ∀ k : Nat, (generation (scripted f) points)^[k] 0 = k := by
    intro k
    induction k with
    | zero => rfl
    | succ k ih => rw [Function.iterate_succ_apply', ih, hgen]
  simp only [fitness_seq]
  rw [show (scripted f).make_population 50 = 0 from rfl, hit]
  rfl

theorem fitness_seq_scripted_eq (f : Nat → ℚ) (points : Mat) :
    fitness_seq (scripted f) points = f :=
  funext (fitness_seq_scripted f points)

theorem executed_fitness_zero_six : executed fitness_zero 6 = 6 := by
  norm_num [executed, stall_count, stalled_generation, stalled, prev_of, fitness_zero, tolerance]

/-! ### Positive fitness: the first generation is no stall -/

theorem not_stalled_zero_of_pos (new_fit_value : ℚ) (h : 0 < new_fit_value) :
    ¬ stalled 0 new_fit_value := by
  unfold stalled tolerance
  rw [sub_zero, abs_of_pos h]
  intro hlt
  linarith

theorem stall_count_succ_le_of_pos (f : Nat → ℚ) (h0 : 0 < f 0) (g : Nat) :
    stall_count f (g + 1) ≤ g := by
  induction g with
  | zero =>
    have hns : ¬ stalled_generation f 0 := not_stalled_zero_of_pos (f 0) h0
    simp [stall_count, hns]
  | succ g ih =>
    rw [stall_count]
    split <;> omega

/-! ## Lemmas on rounding to double -/

theorem round_half_even_intCast (n : ℤ) : round_half_even (n : ℚ) = n := by
  simp [round_half_even]

theorem round_half_even_down (y : ℚ) (n : ℤ) (h1 : (n : ℚ) ≤ y) (h2 : y < n + 1 / 2) :
    round_half_even y = n := by
  have hfl : ⌊y⌋ = n := by
    rw [Int.floor_eq_iff]; constructor <;> linarith
  unfold round_half_even
  rw [hfl, if_pos (by linarith)]

theorem round_half_even_up (y : ℚ) (n : ℤ) (h1 : (n : ℚ) + 1 / 2 < y) (h2 : y < n + 1) :
    round_half_even y = n + 1 := by
  have hfl : ⌊y⌋ = n := by
    rw [Int.floor_eq_iff]; constructor <;> linarith
  unfold round_half_even
  rw [hfl, if_neg (by linarith), if_pos (by linarith)]

theorem round_half_even_tie (y : ℚ) (n : ℤ) (h : y = n + 1 / 2) (heven : n % 2 = 0) :
    round_half_even y = n := by
  have hfl : ⌊y⌋ = n := by
    rw [Int.floor_eq_iff]; constructor <;> linarith
  unfold round_half_even
  rw [hfl, if_neg (by linarith), if_neg (by linarith), if_pos heven]

theorem int_log_eq (r : ℚ) (e : ℤ) (h1 : (2 : ℚ) ^ e ≤ r) (h2 : r < (2 : ℚ) ^ (e + 1)) :
    Int.log 2 r = e := by
  have hr : 0 < r := lt_of_lt_of_le (by positivity) h1
  apply le_antisymm
  · have h := (Int.lt_zpow_iff_log_lt (b := 2) (by norm_num) hr (x := e + 1)).mp
      (by exact_mod_cast h2)
    omega
  · exact (Int.zpow_le_iff_le_log (b := 2) (by norm_num) hr).mp (by exact_mod_cast h1)

theorem int_log_zpow_mul (m : ℤ) (r : ℚ) (hr : 0 < r) :
    Int.log 2 ((2 : ℚ) ^ m * r) = Int.log 2 r + m := by
  have h2 : (0 : ℚ) < (2 : ℚ) ^ m := by positivity
  have hle : ((2 : ℕ) : ℚ) ^ Int.log 2 r ≤ r := Int.zpow_log_le_self (by norm_num) hr
  have hlt : r < ((2 : ℕ) : ℚ) ^ (Int.log 2 r + 1) := Int.lt_zpow_succ_log_self (by norm_num) r
  push_cast at hle hlt
  apply int_log_eq
  · rw [zpow_add₀ (by norm_num : (2 : ℚ) ≠ 0), mul_comm]
    exact mul_le_mul_of_nonneg_left hle h2.le
  · rw [show Int.log 2 r + m + 1 = m + (Int.log 2 r + 1) by ring,
      zpow_add₀ (by norm_num : (2 : ℚ) ≠ 0)]
    exact mul_lt_mul_of_pos_left hlt h2

theorem binade_of_normal (x : ℚ) (h : (2 : ℚ) ^ (-1022 : ℤ) ≤ |x|) :
    binade x = Int.log 2 |x| := by
  have hx : 0 < |x| := lt_of_lt_of_le (by positivity) h
  have hl := (Int.zpow_le_iff_le_log (b := 2) (by norm_num) hx (x := -1022)).mp
    (by exact_mod_cast h)
  unfold binade
  exact max_eq_left hl

theorem binade_of_bounds (x : ℚ) (e : ℤ) (he : -1022 ≤ e) (h1 : (2 : ℚ) ^ e ≤ |x|)
    (h2 : |x| < (2 : ℚ) ^ (e + 1)) : binade x = e := by
  unfold binade
  rw [int_log_eq _ e h1 h2]
  exact max_eq_left he

theorem binade_of_subnormal (x : ℚ) (h0 : x ≠ 0) (h : |x| < (2 : ℚ) ^ (-1022 : ℤ)) :
    binade x = -1022 := by
  have hx : 0 < |x| := abs_pos.mpr h0
  have hl := (Int.lt_zpow_iff_log_lt (b := 2) (by norm_num) hx (x := -1022)).mp
    (by exact_mod_cast h)
  unfold binade
  exact max_eq_right hl.le

/-- The rounding of `x`, from its binade and the rounding of its significand. -/
theorem round_to_double_eval (x : ℚ) (e n : ℤ) (hb : binade x = e)
    (hr : round_half_even (x / (2 : ℚ) ^ (e - 52)) = n) :
    round_to_double x = (n : ℚ) * (2 : ℚ) ^ (e - 52) := by
  unfold round_to_double ulp
  rw [hb, hr]

theorem round_to_double_zero : round_to_double 0 = 0 := by
  simp [round_to_double, round_half_even]

/-- A significand of 53 bits times a power of two of the normal range is a double. -/
theorem round_to_double_representable (n e : ℤ) (he : -1022 ≤ e)
    (h1 : (2 : ℚ) ^ (52 : ℤ) ≤ |(n : ℚ)|) (h2 : |(n : ℚ)| < (2 : ℚ) ^ (53 : ℤ)) :
    round_to_double ((n : ℚ) * (2 : ℚ) ^ (e - 52)) = (n : ℚ) * (2 : ℚ) ^ (e - 52) := by
  have hp : (0 : ℚ) < (2 : ℚ) ^ (e - 52) := by positivity
  have hb : binade ((n : ℚ) * (2 : ℚ) ^ (e - 52)) = e := by
    apply binade_of_bounds _ e he
    · rw [abs_mul, abs_of_pos hp]
      calc (2 : ℚ) ^ e = (2 : ℚ) ^ (52 : ℤ) * (2 : ℚ) ^ (e - 52) := by
            rw [← zpow_add₀ (by norm_num : (2 : ℚ) ≠ 0)]; congr 1; ring
        _ ≤ |(n : ℚ)| * (2 : ℚ) ^ (e - 52) := mul_le_mul_of_nonneg_right h1 hp.le
    · rw [abs_mul, abs_of_pos hp]
      calc |(n : ℚ)| * (2 : ℚ) ^ (e - 52) < (2 : ℚ) ^ (53 : ℤ) * (2 : ℚ) ^ (e - 52) :=
            mul_lt_mul_of_pos_right h2 hp
        _ = (2 : ℚ) ^ (e + 1) := by
            rw [← zpow_add₀ (by norm_num : (2 : ℚ) ≠ 0)]; congr 1; ring
  apply round_to_double_eval _ e n hb
  rw [mul_div_assoc, div_self hp.ne', mul_one, round_half_even_intCast]

/-- A positive value below half the smallest subnormal double rounds to 0. -/
theorem round_to_double_tiny (x : ℚ) (h0 : 0 < x) (h : x < (2 : ℚ) ^ (-1075 : ℤ)) :
    round_to_double x = 0 := by
  have hb : binade x = -1022 := by
    apply binade_of_subnormal x h0.ne'
    rw [abs_of_pos h0]
    exact lt_trans h (by norm_num)
  have hy0 : 0 < x / (2 : ℚ) ^ (-1022 - 52 : ℤ) := div_pos h0 (by positivity)
  have hy1 : x / (2 : ℚ) ^ (-1022 - 52 : ℤ) < 1 / 2 := by
    rw [div_lt_iff₀ (by positivity)]
    calc x < (2 : ℚ) ^ (-1075 : ℤ) := h
      _ = 1 / 2 * (2 : ℚ) ^ (-1022 - 52 : ℤ) := by norm_num
  rw [round_to_double_eval x (-1022) 0 hb
    (round_half_even_down _ 0 (by rw [Int.cast_zero]; exact hy0.le)
      (by rw [Int.cast_zero, zero_add]; exact hy1))]
  rw [Int.cast_zero, zero_mul]

/-- Scaling by a power of two commutes with rounding inside the normal range. -/
theorem round_to_double_scale (m : ℤ) (x : ℚ) (h1 : (2 : ℚ) ^ (-1022 : ℤ) ≤ |x|)
    (h2 : (2 : ℚ) ^ (-1022 : ℤ) ≤ |(2 : ℚ) ^ m * x|) :
    round_to_double ((2 : ℚ) ^ m * x) = (2 : ℚ) ^ m * round_to_double x := by
  have hx : 0 < |x| := lt_of_lt_of_le (by positivity) h1
  have hm : (0 : ℚ) < (2 : ℚ) ^ m := by positivity
  have hb : binade ((2 : ℚ) ^ m * x) = binade x + m := by
    rw [binade_of_normal _ h2, binade_of_normal _ h1, abs_mul, abs_of_pos hm,
      int_log_zpow_mul m _ hx]
  have hu : ulp ((2 : ℚ) ^ m * x) = (2 : ℚ) ^ m * ulp x := by
    unfold ulp
    rw [hb, ← zpow_add₀ (by norm_num : (2 : ℚ) ≠ 0)]
    congr 1; ring
  unfold round_to_double
  rw [hu, mul_div_mul_left _ _ hm.ne']
  ring

theorem of_rat_zero : Double.of_rat 0 = Double.finite 0 := by
  have hpos : ¬ (2 : ℚ) ^ (1024 : ℤ) ≤ 0 := not_le.mpr (by positivity)
  simp [Double.of_rat, round_to_double_zero, hpos]

theorem of_rat_scale (m : ℤ) (x : ℚ) (h : in_range_scaled m x) :
    Double.of_rat x = Double.finite (round_to_double x) ∧
    Double.of_rat ((2 : ℚ) ^ m * x) = Double.finite ((2 : ℚ) ^ m * round_to_double x) := by
  rcases h with h | ⟨h1, h2, h3, h4⟩
  · subst h
    rw [mul_zero, of_rat_zero, round_to_double_zero, mul_zero]
    exact ⟨rfl, rfl⟩
  · unfold Double.of_rat
    rw [if_neg (not_le.mpr h3), if_neg (not_le.mpr h4), round_to_double_scale m x h1 h2]
    exact ⟨rfl, rfl⟩

theorem round_to_double_one : round_to_double 1 = 1 := by
  have h := round_to_double_representable (2 ^ 52) 0 (by norm_num) (by norm_num) (by norm_num)
  norm_num at h
  exact h

theorem of_rat_one : Double.of_rat 1 = Double.finite 1 := by
  unfold Double.of_rat
  rw [round_to_double_one, if_neg (by norm_num)]

/-- The double nearest to 1/100 is `5764607523034235 / 2^59`. -/
theorem round_to_double_tolerance :
    round_to_double tolerance = 5764607523034235 / 2 ^ 59 := by
  have hb : binade tolerance = -7 := by
    apply binade_of_bounds _ _ (by norm_num)
    · rw [abs_of_pos (by norm_num [tolerance])]; norm_num [tolerance]
    · rw [abs_of_pos (by norm_num [tolerance])]; norm_num [tolerance]
  rw [round_to_double_eval tolerance (-7) 5764607523034235 hb
    (round_half_even_up _ 5764607523034234 (by norm_num [tolerance])
      (by norm_num [tolerance]))]
  norm_num

theorem tolerance_double_eq : tolerance_double = Double.finite (5764607523034235 / 2 ^ 59) := by
  unfold tolerance_double Double.of_rat
  rw [round_to_double_tolerance, if_neg (by rw [abs_of_pos (by norm_num)]; norm_num)]

theorem lt_abs_zero (x : Double) : (x.abs).lt (Double.finite 0) = false := by
  cases x with
  | finite a => simp [Double.abs, Double.lt]
  | infinity s => rfl
  | nan => rfl

/-- The stall test is unchanged by a power of two when nothing leaves the normal range. -/
theorem stalled_double_scale (m : ℤ) (p n : ℚ) (hd : in_range_scaled m (n - p))
    (hp : in_range_scaled m (round_to_double tolerance * n)) :
    stalled_double (Double.finite ((2 : ℚ) ^ m * p)) (Double.finite ((2 : ℚ) ^ m * n)) =
      stalled_double (Double.finite p) (Double.finite n) := by
  have hm : (0 : ℚ) < (2 : ℚ) ^ m := by positivity
  obtain ⟨d1, d2⟩ := of_rat_scale m _ hd
  obtain ⟨p1, p2⟩ := of_rat_scale m _ hp
  rw [round_to_double_tolerance] at p1 p2
  unfold stalled_double
  rw [tolerance_double_eq]
  simp only [Double.sub, Double.mul]
  rw [← mul_sub, mul_left_comm, d1, d2, p1, p2]
  simp only [Double.abs, Double.lt, abs_mul, abs_of_pos hm]
  rw [decide_eq_decide]
  exact mul_lt_mul_left hm

/-- Two fitness sequences with the same stall decisions leave the loop in the same
generation with the same counter. -/
theorem evolution_loop_double_congr (f g : Nat → Double)
    (h : ∀ t, stalled_double (prev_of_double g t) (g t) =
      stalled_double (prev_of_double f t) (f t)) (n st t0 : Nat) :
    (evolution_loop_double g n
        { prev_fit_value := prev_of_double g t0, stale := st, generations := t0 }).stale =
      (evolution_loop_double f n
        { prev_fit_value := prev_of_double f t0, stale := st, generations := t0 }).stale ∧
    (evolution_loop_double g n
        { prev_fit_value := prev_of_double g t0, stale := st, generations := t0 }).generations =
      (evolution_loop_double f n
        { prev_fit_value := prev_of_double f t0, stale := st, generations := t0 }).generations := by
  induction n generalizing st t0 with
  | zero => exact ⟨rfl, rfl⟩
  | succ n ih =>
    rw [evolution_loop_double, evolution_loop_double]
    simp only [h t0]
    cases stalled_double (prev_of_double f t0) (f t0)
    · simp only [Bool.false_eq_true, if_false]
      by_cases h5 : st = 5
      · rw [if_pos h5, if_pos h5]
        exact ⟨rfl, rfl⟩
      · rw [if_neg h5, if_neg h5]
        exact ih st (t0 + 1)
    · simp only [if_true]
      by_cases h5 : st + 1 = 5
      · rw [if_pos h5, if_pos h5]
        exact ⟨rfl, rfl⟩
      · rw [if_neg h5, if_neg h5]
        exact ih (st + 1) (t0 + 1)

theorem evolution_loop_double_never (f : Nat → Double)
    (h : ∀ prev t, stalled_double prev (f t) = false) (n : Nat) (s : StallState)
    (hs : s.stale ≠ 5) :
    (evolution_loop_double f n s).stale = s.stale ∧
    (evolution_loop_double f n s).generations = s.generations + n := by
  induction n generalizing s with
  | zero => exact ⟨rfl, rfl⟩
  | succ n ih =>
    rw [evolution_loop_double]
    simp only [h, Bool.false_eq_true, if_false, hs]
    obtain ⟨h1, h2⟩ := ih
      { prev_fit_value := f s.generations, stale := s.stale, generations := s.generations + 1 } hs
    refine ⟨h1, ?_⟩
    rw [h2]; simp only; omega

/-! ### Roundings of the concrete inputs -/

theorem round_to_double_min_subnormal :
    round_to_double ((2 : ℚ) ^ (-1074 : ℤ)) = (2 : ℚ) ^ (-1074 : ℤ) := by
  have hb : binade ((2 : ℚ) ^ (-1074 : ℤ)) = -1022 := by
    apply binade_of_subnormal _ (by positivity)
    rw [abs_of_pos (by positivity)]; norm_num
  rw [round_to_double_eval _ (-1022) 1 hb
    (round_half_even_down _ 1 (by norm_num) (by norm_num))]
  norm_num

theorem scaled_fitness_one_tiny (t : Nat) :
    scaled_double (Double.finite ((2 : ℚ) ^ (-1074 : ℤ))) fitness_one t =
      Double.finite ((2 : ℚ) ^ (-1074 : ℤ)) := by
  simp only [scaled_double, fitness_one, Double.mul, mul_one]
  unfold Double.of_rat
  rw [round_to_double_min_subnormal, if_neg (by rw [abs_of_pos (by positivity)]; norm_num)]

theorem round_to_double_tolerance_fixed :
    round_to_double (5764607523034235 / 2 ^ 59) = 5764607523034235 / 2 ^ 59 := by
  have h := round_to_double_representable 5764607523034235 (-7) (by norm_num) (by norm_num)
    (by norm_num)
  norm_num at h ⊢
  exact h

theorem stalled_double_first : stalled_double (Double.finite 0) (Double.finite 1) = false := by
  unfold stalled_double
  rw [tolerance_double_eq]
  simp only [Double.sub, Double.mul, sub_zero, mul_one, of_rat_one, Double.abs]
  unfold Double.of_rat
  rw [round_to_double_tolerance_fixed, if_neg (by rw [abs_of_pos (by norm_num)]; norm_num)]
  simp only [Double.lt]
  norm_num

theorem stalled_double_steady : stalled_double (Double.finite 1) (Double.finite 1) = true := by
  unfold stalled_double
  rw [tolerance_double_eq]
  simp only [Double.sub, Double.mul, sub_self, mul_one, of_rat_zero, Double.abs]
  unfold Double.of_rat
  rw [round_to_double_tolerance_fixed, if_neg (by rw [abs_of_pos (by norm_num)]; norm_num)]
  simp only [Double.lt]
  norm_num

/-- The product `tolerance * 2^-1074` underflows to 0, so the test fails whatever the
difference is. -/
theorem stalled_double_tiny (prev : Double) :
    stalled_double prev (Double.finite ((2 : ℚ) ^ (-1074 : ℤ))) = false := by
  unfold stalled_double
  rw [tolerance_double_eq]
  have hz : Double.of_rat (5764607523034235 / 2 ^ 59 * (2 : ℚ) ^ (-1074 : ℤ)) =
      Double.finite 0 := by
    have h := round_to_double_tiny (5764607523034235 / 2 ^ 59 * (2 : ℚ) ^ (-1074 : ℤ))
      (by positivity) (by norm_num)
    unfold Double.of_rat
    rw [h, if_neg (by norm_num)]
  simp only [Double.mul]
  rw [hz]
  exact lt_abs_zero _

theorem round_to_double_step_difference :
    round_to_double (257 / 256 - 8951959790561526 / 2 ^ 53) = 5787125521171072 / 2 ^ 59 := by
  have h := round_to_double_representable 5787125521171072 (-7) (by norm_num) (by norm_num)
    (by norm_num)
  norm_num at h ⊢
  exact h

theorem round_to_double_step_product :
    round_to_double (5764607523034235 / 2 ^ 59 * (257 / 256)) = 5787125521171087 / 2 ^ 59 := by
  have hb : binade (5764607523034235 / 2 ^ 59 * (257 / 256)) = -7 := by
    apply binade_of_bounds _ _ (by norm_num)
    · rw [abs_of_pos (by norm_num)]; norm_num
    · rw [abs_of_pos (by norm_num)]; norm_num
  rw [round_to_double_eval _ (-7) 5787125521171087 hb
    (round_half_even_down _ 5787125521171087 (by norm_num) (by norm_num))]
  norm_num

theorem round_to_double_step_scaled_new :
    round_to_double (3 * (257 / 256)) = 771 / 256 := by
  have h := round_to_double_representable 6781787720122368 1 (by norm_num) (by norm_num)
    (by norm_num)
  norm_num at h ⊢
  exact h

theorem round_to_double_step_scaled_prev :
    round_to_double (3 * (8951959790561526 / 2 ^ 53)) = 26855879371684576 / 2 ^ 53 := by
  have hb : binade (3 * (8951959790561526 / 2 ^ 53)) = 1 := by
    apply binade_of_bounds _ _ (by norm_num)
    · rw [abs_of_pos (by norm_num)]; norm_num
    · rw [abs_of_pos (by norm_num)]; norm_num
  rw [round_to_double_eval _ 1 6713969842921144 hb
    (round_half_even_tie _ 6713969842921144 (by norm_num) (by norm_num))]
  norm_num

theorem round_to_double_step_scaled_difference :
    round_to_double (771 / 256 - 26855879371684576 / 2 ^ 53) = 8680688281756672 / 2 ^ 58 := by
  have h := round_to_double_representable 8680688281756672 (-6) (by norm_num) (by norm_num)
    (by norm_num)
  norm_num at h ⊢
  exact h

theorem round_to_double_step_scaled_product :
    round_to_double (5764607523034235 / 2 ^ 59 * (771 / 256)) = 8680688281756631 / 2 ^ 58 := by
  have hb : binade (5764607523034235 / 2 ^ 59 * (771 / 256)) = -6 := by
    apply binade_of_bounds _ _ (by norm_num)
    · rw [abs_of_pos (by norm_num)]; norm_num
    · rw [abs_of_pos (by norm_num)]; norm_num
  rw [round_to_double_eval _ (-6) 8680688281756631 hb
    (round_half_even_down _ 8680688281756631 (by norm_num) (by norm_num))]
  norm_num

theorem stalled_double_step :
    stalled_double (Double.finite (8951959790561526 / 2 ^ 53)) (Double.finite (257 / 256)) =
      true := by
  unfold stalled_double
  rw [tolerance_double_eq]
  simp only [Double.sub, Double.mul]
  unfold Double.of_rat
  rw [round_to_double_step_difference, round_to_double_step_product,
    if_neg (by rw [abs_of_pos (by norm_num)]; norm_num),
    if_neg (by rw [abs_of_pos (by norm_num)]; norm_num)]
  simp only [Double.abs, Double.lt]
  rw [abs_of_pos (by norm_num)]
  norm_num

theorem scaled_fitness_step_zero :
    scaled_double (Double.finite 3) fitness_step 0 =
      Double.finite (26855879371684576 / 2 ^ 53) := by
  simp only [scaled_double, fitness_step, Double.mul]
  unfold Double.of_rat
  rw [round_to_double_step_scaled_prev, if_neg (by rw [abs_of_pos (by norm_num)]; norm_num)]

theorem scaled_fitness_step_one :
    scaled_double (Double.finite 3) fitness_step 1 = Double.finite (771 / 256) := by
  simp only [scaled_double, fitness_step, Double.mul]
  unfold Double.of_rat
  rw [round_to_double_step_scaled_new, if_neg (by rw [abs_of_pos (by norm_num)]; norm_num)]

theorem stalled_double_step_scaled :
    stalled_double (Double.finite (26855879371684576 / 2 ^ 53)) (Double.finite (771 / 256)) =
      false := by
  unfold stalled_double
  rw [tolerance_double_eq]
  simp only [Double.sub, Double.mul]
  unfold Double.of_rat
  rw [round_to_double_step_scaled_difference, round_to_double_step_scaled_product,
    if_neg (by rw [abs_of_pos (by norm_num)]; norm_num),
    if_neg (by rw [abs_of_pos (by norm_num)]; norm_num)]
  simp only [Double.abs, Double.lt]
  rw [abs_of_pos (by norm_num)]
  norm_num

theorem in_range_scaled_of (m : ℤ) (x : ℚ) (h1 : (2 : ℚ) ^ (-1022 : ℤ) ≤ |x|)
    (h2 : (2 : ℚ) ^ (-1022 : ℤ) ≤ |(2 : ℚ) ^ m * x|)
    (h3 : |round_to_double x| < (2 : ℚ) ^ (1024 : ℤ))
    (h4 : |(2 : ℚ) ^ m * round_to_double x| < (2 : ℚ) ^ (1024 : ℤ)) : in_range_scaled m x := by
  refine Or.inr ⟨h1, h2, h3, ?_⟩
  rw [round_to_double_scale m x h1 h2]
  exact h4

theorem in_range_scaled_one : in_range_scaled 10 1 := by
  apply in_range_scaled_of
  · rw [abs_one]; norm_num
  · rw [abs_of_pos (by norm_num)]; norm_num
  · rw [round_to_double_one, abs_one]; norm_num
  · rw [round_to_double_one, abs_of_pos (by norm_num)]; norm_num

theorem in_range_scaled_tolerance : in_range_scaled 10 (round_to_double tolerance * 1) := by
  rw [round_to_double_tolerance, mul_one]
  apply in_range_scaled_of
  · rw [abs_of_pos (by norm_num)]; norm_num
  · rw [abs_of_pos (by norm_num)]; norm_num
  · rw [round_to_double_tolerance_fixed, abs_of_pos (by norm_num)]; norm_num
  · rw [round_to_double_tolerance_fixed, abs_of_pos (by norm_num)]; norm_num

/-! ## Lemmas on `post_processing` -/

theorem fill_aabb_shape (storage : Storage) (ic : Iso_cuboid_3) :
    (fill_aabb storage ic).rows = 8 ∧ (fill_aabb storage ic).cols = 3 := by
  cases storage <;> exact ⟨rfl, rfl⟩

theorem fill_aabb_coeff (storage : Storage) (ic : Iso_cuboid_3) (k : Nat) (hk : k < 8) :
    (fill_aabb storage ic).coeff k 0 = (ic.vertex k).x ∧
    (fill_aabb storage ic).coeff k 1 = (ic.vertex k).y ∧
    (fill_aabb storage ic).coeff k 2 = (ic.vertex k).z := by
  cases storage <;> interval_cases k <;>
    simp [fill_aabb, Storage.default_constructed, Mat.resize, Mat.coeffRef_assign,
      List.range_succ]

theorem mul_coeff_three (A B : Mat) (h : A.cols = 3) (i j : Nat) :
    (A.mul B).coeff i j =
      A.coeff i 0 * B.coeff 0 j + A.coeff i 1 * B.coeff 1 j + A.coeff i 2 * B.coeff 2 j := by
  simp [Mat.mul, h, Finset.sum_range_succ]

theorem rotate_points_coeff (points R : Mat) (h : points.cols = 3) (i j : Nat) :
    (rotate_points points R).coeff i j =
      points.coeff i 0 * R.coeff j 0 + points.coeff i 1 * R.coeff j 1 +
        points.coeff i 2 * R.coeff j 2 := by
  unfold rotate_points
  rw [mul_coeff_three _ _ h]
  rfl

theorem rotate_points_shape (points R : Mat) :
    (rotate_points points R).rows = points.rows ∧ (rotate_points points R).cols = R.rows :=
  ⟨rfl, rfl⟩

/-- The rows of an orthonormal matrix are orthonormal. -/
theorem orthonormal_rows (R : Mat) (hR : orthonormal R) (i j : Nat) (hi : i < 3) (hj : j < 3) :
    R.coeff i 0 * R.coeff j 0 + R.coeff i 1 * R.coeff j 1 + R.coeff i 2 * R.coeff j 2 =
      if i = j then 1 else 0 := by
  have h := hR.2.2 i hi j hj
  rw [mul_coeff_three _ _ hR.2.1] at h
  exact h

/-- The columns of an orthonormal matrix are orthonormal: `R^T * R = I`. -/
theorem orthonormal_cols (R : Mat) (hR : orthonormal R) (i j : Nat) (hi : i < 3) (hj : j < 3) :
    R.coeff 0 i * R.coeff 0 j + R.coeff 1 i * R.coeff 1 j + R.coeff 2 i * R.coeff 2 j =
      if i = j then 1 else 0 := by
  let M : Matrix (Fin 3) (Fin 3) ℚ := fun a b => R.coeff a b
  have h1 : M * M.transpose = 1 := by
    ext a b
    have h := orthonormal_rows R hR a b a.isLt b.isLt
    rw [Matrix.mul_apply, Fin.sum_univ_three]
    simp only [Matrix.transpose_apply, Matrix.one_apply, M]
    rw [show ((0 : Fin 3) : ℕ) = 0 from rfl, show ((1 : Fin 3) : ℕ) = 1 from rfl,
      show ((2 : Fin 3) : ℕ) = 2 from rfl, h]
    by_cases hab : a = b
    · simp [hab]
    · have : (a : ℕ) ≠ b := fun hv => hab (Fin.ext hv)
      simp [hab, this]
  have h2 : M.transpose * M = 1 := Matrix.mul_eq_one_comm.mp h1
  have h3 := congrFun (congrFun h2 ⟨i, hi⟩) ⟨j, hj⟩
  rw [Matrix.mul_apply, Fin.sum_univ_three] at h3
  simp only [Matrix.transpose_apply, Matrix.one_apply, M] at h3
  rw [show ((0 : Fin 3) : ℕ) = 0 from rfl, show ((1 : Fin 3) : ℕ) = 1 from rfl,
    show ((2 : Fin 3) : ℕ) = 2 from rfl] at h3
  rw [h3]
  by_cases hij : i = j
  · simp [hij]
  · have : (⟨i, hi⟩ : Fin 3) ≠ ⟨j, hj⟩ := fun hv => hij (Fin.mk.inj hv)
    simp [hij, this]

/-- Right multiplication by `R` undoes the rotation of step 1, coefficient by coefficient. -/
theorem rotate_points_mul_coeff (points R : Mat) (hcols : points.cols = 3)
    (hR : orthonormal R) (i j : Nat) (hj : j < 3) :
    ((rotate_points points R).mul R).coeff i j = points.coeff i j := by
  have hc : (rotate_points points R).cols = 3 := hR.1
  rw [mul_coeff_three _ _ hc, rotate_points_coeff _ _ hcols, rotate_points_coeff _ _ hcols,
    rotate_points_coeff _ _ hcols]
  have c0 := orthonormal_cols R hR 0 j (by decide) hj
  have c1 := orthonormal_cols R hR 1 j (by decide) hj
  have c2 := orthonormal_cols R hR 2 j (by decide) hj
  interval_cases j
  · simp only [if_true, if_false, show (1 : ℕ) ≠ 0 by decide, show (2 : ℕ) ≠ 0 by decide] at c0 c1 c2
    linear_combination points.coeff i 0 * c0 + points.coeff i 1 * c1 + points.coeff i 2 * c2
  · simp only [if_true, if_false, show (0 : ℕ) ≠ 1 by decide, show (2 : ℕ) ≠ 1 by decide] at c0 c1 c2
    linear_combination points.coeff i 0 * c0 + points.coeff i 1 * c1 + points.coeff i 2 * c2
  · simp only [if_true, if_false, show (0 : ℕ) ≠ 2 by decide, show (1 : ℕ) ≠ 2 by decide] at c0 c1 c2
    linear_combination points.coeff i 0 * c0 + points.coeff i 1 * c1 + points.coeff i 2 * c2

/-- Rotating with `R` what right multiplication by `R` produced gives the matrix back,
coefficient by coefficient: step 1 undoes step 3. -/
theorem mul_rotate_points_coeff (A R : Mat) (hA : A.cols = 3) (hR : orthonormal R) (i j : Nat)
    (hj : j < 3) : (rotate_points (A.mul R) R).coeff i j = A.coeff i j := by
  have hc : (A.mul R).cols = 3 := hR.2.1
  rw [rotate_points_coeff _ _ hc, mul_coeff_three _ _ hA, mul_coeff_three _ _ hA,
    mul_coeff_three _ _ hA]
  have r0 := orthonormal_rows R hR 0 j (by decide) hj
  have r1 := orthonormal_rows R hR 1 j (by decide) hj
  have r2 := orthonormal_rows R hR 2 j (by decide) hj
  interval_cases j
  · simp only [if_true, if_false, show (1 : ℕ) ≠ 0 by decide,
      show (2 : ℕ) ≠ 0 by decide] at r0 r1 r2
    linear_combination A.coeff i 0 * r0 + A.coeff i 1 * r1 + A.coeff i 2 * r2
  · simp only [if_true, if_false, show (0 : ℕ) ≠ 1 by decide,
      show (2 : ℕ) ≠ 1 by decide] at r0 r1 r2
    linear_combination A.coeff i 0 * r0 + A.coeff i 1 * r1 + A.coeff i 2 * r2
  · simp only [if_true, if_false, show (0 : ℕ) ≠ 2 by decide,
      show (1 : ℕ) ≠ 2 by decide] at r0 r1 r2
    linear_combination A.coeff i 0 * r0 + A.coeff i 1 * r1 + A.coeff i 2 * r2

/-! ### The bounding box of a list of points -/

theorem foldl_min_le (g : Point → ℚ) (ps : List Point) (m0 : ℚ) :
    ps.foldl (fun m q => min m (g q)) m0 ≤ m0 ∧
      ∀ q ∈ ps, ps.foldl (fun m q => min m (g q)) m0 ≤ g q := by
  induction ps generalizing m0 with
  | nil => simp
  | cons p ps ih =>
    simp only [List.foldl_cons, List.mem_cons, forall_eq_or_imp]
    obtain ⟨h1, h2⟩ := ih (min m0 (g p))
    exact ⟨le_trans h1 (min_le_left _ _), le_trans h1 (min_le_right _ _), h2⟩

theorem foldl_min_attained (g : Point → ℚ) (ps : List Point) (m0 : ℚ) :
    ps.foldl (fun m q => min m (g q)) m0 = m0 ∨
      ∃ q ∈ ps, g q = ps.foldl (fun m q => min m (g q)) m0 := by
  induction ps generalizing m0 with
  | nil => simp
  | cons p ps ih =>
    simp only [List.foldl_cons, List.mem_cons, exists_eq_or_imp]
    rcases ih (min m0 (g p)) with h | ⟨q, hq, hgq⟩
    · rw [h]
      rcases min_choice m0 (g p) with hm | hm
      · exact Or.inl hm
      · exact Or.inr (Or.inl hm.symm)
    · exact Or.inr (Or.inr ⟨q, hq, hgq⟩)

theorem le_foldl_max (g : Point → ℚ) (ps : List Point) (m0 : ℚ) :
    m0 ≤ ps.foldl (fun m q => max m (g q)) m0 ∧
      ∀ q ∈ ps, g q ≤ ps.foldl (fun m q => max m (g q)) m0 := by
  induction ps generalizing m0 with
  | nil => simp
  | cons p ps ih =>
    simp only [List.foldl_cons, List.mem_cons, forall_eq_or_imp]
    obtain ⟨h1, h2⟩ := ih (max m0 (g p))
    exact ⟨le_trans (le_max_left _ _) h1, le_trans (le_max_right _ _) h1, h2⟩

theorem foldl_max_attained (g : Point → ℚ) (ps : List Point) (m0 : ℚ) :
    ps.foldl (fun m q => max m (g q)) m0 = m0 ∨
      ∃ q ∈ ps, g q = ps.foldl (fun m q => max m (g q)) m0 := by
  induction ps generalizing m0 with
  | nil => simp
  | cons p ps ih =>
    simp only [List.foldl_cons, List.mem_cons, exists_eq_or_imp]
    rcases ih (max m0 (g p)) with h | ⟨q, hq, hgq⟩
    · rw [h]
      rcases max_choice m0 (g p) with hm | hm
      · exact Or.inl hm
      · exact Or.inr (Or.inl hm.symm)
    · exact Or.inr (Or.inr ⟨q, hq, hgq⟩)

/-- Each bound of the folded box is the fold of `min` or `max` over one coordinate. -/
theorem foldl_add_bounds (ps : List Point) (b0 : Bbox_3) :
    (ps.foldl (fun res q => res.add q.bbox) b0).xmin = ps.foldl (fun m q => min m q.x) b0.xmin ∧
    (ps.foldl (fun res q => res.add q.bbox) b0).ymin = ps.foldl (fun m q => min m q.y) b0.ymin ∧
    (ps.foldl (fun res q => res.add q.bbox) b0).zmin = ps.foldl (fun m q => min m q.z) b0.zmin ∧
    (ps.foldl (fun res q => res.add q.bbox) b0).xmax = ps.foldl (fun m q => max m q.x) b0.xmax ∧
    (ps.foldl (fun res q => res.add q.bbox) b0).ymax = ps.foldl (fun m q => max m q.y) b0.ymax ∧
    (ps.foldl (fun res q => res.add q.bbox) b0).zmax = ps.foldl (fun m q => max m q.z) b0.zmax := by
  induction ps generalizing b0 with
  | nil => simp
  | cons p ps ih =>
    simp only [List.foldl_cons]
    exact ih (b0.add p.bbox)

theorem bbox_3_isSome (l : List Point) (h : l ≠ []) : ∃ b, bbox_3 l = some b := by
  cases l with
  | nil => exact absurd rfl h
  | cons p ps => exact ⟨_, rfl⟩

/-- The box of a list bounds every point of the list. -/
theorem bbox_3_bounds (l : List Point) (b : Bbox_3) (h : bbox_3 l = some b) (q : Point)
    (hq : q ∈ l) :
    b.xmin ≤ q.x ∧ q.x ≤ b.xmax ∧ b.ymin ≤ q.y ∧ q.y ≤ b.ymax ∧ b.zmin ≤ q.z ∧ q.z ≤ b.zmax := by
  cases l with
  | nil => simp [bbox_3] at h
  | cons p ps =>
    simp only [bbox_3, Option.some.injEq] at h
    obtain ⟨e1, e2, e3, e4, e5, e6⟩ := foldl_add_bounds ps p.bbox
    rw [h] at e1 e2 e3 e4 e5 e6
    rw [e1, e2, e3, e4, e5, e6]
    have m1 := foldl_min_le (fun q => q.x) ps p.bbox.xmin
    have m2 := foldl_min_le (fun q => q.y) ps p.bbox.ymin
    have m3 := foldl_min_le (fun q => q.z) ps p.bbox.zmin
    have m4 := le_foldl_max (fun q => q.x) ps p.bbox.xmax
    have m5 := le_foldl_max (fun q => q.y) ps p.bbox.ymax
    have m6 := le_foldl_max (fun q => q.z) ps p.bbox.zmax
    rcases List.mem_cons.mp hq with hqp | hqps
    · subst hqp
      exact ⟨m1.1, m4.1, m2.1, m5.1, m3.1, m6.1⟩
    · exact ⟨m1.2 q hqps, m4.2 q hqps, m2.2 q hqps, m5.2 q hqps, m3.2 q hqps, m6.2 q hqps⟩

/-- Each bound of the box of a list is a coordinate of some point of the list. -/
theorem bbox_3_attained (l : List Point) (b : Bbox_3) (h : bbox_3 l = some b) :
    (∃ q ∈ l, q.x = b.xmin) ∧ (∃ q ∈ l, q.x = b.xmax) ∧ (∃ q ∈ l, q.y = b.ymin) ∧
    (∃ q ∈ l, q.y = b.ymax) ∧ (∃ q ∈ l, q.z = b.zmin) ∧ (∃ q ∈ l, q.z = b.zmax) := by
  cases l with
  | nil => simp [bbox_3] at h
  | cons p ps =>
    simp only [bbox_3, Option.some.injEq] at h
    obtain ⟨e1, e2, e3, e4, e5, e6⟩ := foldl_add_bounds ps p.bbox
    rw [h] at e1 e2 e3 e4 e5 e6
    rw [e1, e2, e3, e4, e5, e6]
    have lift : ∀ (g : Point → ℚ) (v : ℚ), (v = g p ∨ ∃ q ∈ ps, g q = v) →
        ∃ q ∈ p :: ps, g q = v := by
      intro g v hv
      rcases hv with hv | ⟨q, hq, hgq⟩
      · exact ⟨p, List.mem_cons_self _ _, hv.symm⟩
      · exact ⟨q, List.mem_cons_of_mem _ hq, hgq⟩
    exact ⟨lift (fun q => q.x) _ (foldl_min_attained (fun q => q.x) ps p.bbox.xmin),
      lift (fun q => q.x) _ (foldl_max_attained (fun q => q.x) ps p.bbox.xmax),
      lift (fun q => q.y) _ (foldl_min_attained (fun q => q.y) ps p.bbox.ymin),
      lift (fun q => q.y) _ (foldl_max_attained (fun q => q.y) ps p.bbox.ymax),
      lift (fun q => q.z) _ (foldl_min_attained (fun q => q.z) ps p.bbox.zmin),
      lift (fun q => q.z) _ (foldl_max_attained (fun q => q.z) ps p.bbox.zmax)⟩

theorem mem_to_v_points (M : Mat) (q : Point) :
    q ∈ to_v_points M ↔ ∃ i, i < M.rows ∧ M.row_point i = q := by
  simp [to_v_points, Mat.row_point]

theorem rotated_bbox_isSome (points R : Mat) (hrows : 1 ≤ points.rows) :
    ∃ b, rotated_bbox points R = some b := by
  apply bbox_3_isSome
  intro hnil
  have hmem : (rotate_points points R).row_point 0 ∈ to_v_points (rotate_points points R) :=
    (mem_to_v_points _ _).mpr ⟨0, hrows, rfl⟩
  rw [hnil] at hmem
  exact List.not_mem_nil _ hmem

/-- Every rotated point lies between the bounds of the box of step 2. -/
theorem rotated_bbox_bounds (points R : Mat) (b : Bbox_3) (hb : rotated_bbox points R = some b)
    (i : Nat) (hi : i < points.rows) :
    b.xmin ≤ (rotate_points points R).coeff i 0 ∧ (rotate_points points R).coeff i 0 ≤ b.xmax ∧
    b.ymin ≤ (rotate_points points R).coeff i 1 ∧ (rotate_points points R).coeff i 1 ≤ b.ymax ∧
    b.zmin ≤ (rotate_points points R).coeff i 2 ∧ (rotate_points points R).coeff i 2 ≤ b.zmax :=
  bbox_3_bounds _ b hb ((rotate_points points R).row_point i)
    ((mem_to_v_points _ _).mpr ⟨i, hi, rfl⟩)

/-- Every bound of the box of step 2 is a coordinate of some rotated point. -/
theorem rotated_bbox_attained (points R : Mat) (b : Bbox_3)
    (hb : rotated_bbox points R = some b) :
    (∃ i, i < points.rows ∧ (rotate_points points R).coeff i 0 = b.xmin) ∧
    (∃ i, i < points.rows ∧ (rotate_points points R).coeff i 0 = b.xmax) ∧
    (∃ i, i < points.rows ∧ (rotate_points points R).coeff i 1 = b.ymin) ∧
    (∃ i, i < points.rows ∧ (rotate_points points R).coeff i 1 = b.ymax) ∧
    (∃ i, i < points.rows ∧ (rotate_points points R).coeff i 2 = b.zmin) ∧
    (∃ i, i < points.rows ∧ (rotate_points points R).coeff i 2 = b.zmax) := by
  obtain ⟨⟨q1, hq1, e1⟩, ⟨q2, hq2, e2⟩, ⟨q3, hq3, e3⟩, ⟨q4, hq4, e4⟩, ⟨q5, hq5, e5⟩,
    ⟨q6, hq6, e6⟩⟩ := bbox_3_attained _ b hb
  obtain ⟨i1, hi1, r1⟩ := (mem_to_v_points _ _).mp hq1
  obtain ⟨i2, hi2, r2⟩ := (mem_to_v_points _ _).mp hq2
  obtain ⟨i3, hi3, r3⟩ := (mem_to_v_points _ _).mp hq3
  obtain ⟨i4, hi4, r4⟩ := (mem_to_v_points _ _).mp hq4
  obtain ⟨i5, hi5, r5⟩ := (mem_to_v_points _ _).mp hq5
  obtain ⟨i6, hi6, r6⟩ := (mem_to_v_points _ _).mp hq6
  subst r1 r2 r3 r4 r5 r6
  exact ⟨⟨i1, hi1, e1⟩, ⟨i2, hi2, e2⟩, ⟨i3, hi3, e3⟩, ⟨i4, hi4, e4⟩, ⟨i5, hi5, e5⟩,
    ⟨i6, hi6, e6⟩⟩

/-- With every assertion passing and a box at hand, `post_processing` writes `aabb * R`. -/
theorem post_processing_ok (storage : Storage) (points R obb : Mat) (b : Bbox_3)
    (hcols : points.cols = 3) (hRr : R.rows = 3) (hRc : R.cols = 3) (ho : obb.rows = 8)
    (hoc : obb.cols = 3) (hb : rotated_bbox points R = some b) :
    post_processing storage points R obb =
      (Status.ok, (fill_aabb storage (Iso_cuboid_3.of_bbox b)).mul R) := by
  unfold rotated_bbox at hb
  simp [post_processing, hcols, hRr, hRc, ho, hoc, hb]

/-- The coefficients of the matrix written by `post_processing`. -/
theorem obb_coeff (storage : Storage) (R : Mat) (b : Bbox_3) (k j : Nat) (hk : k < 8) :
    ((fill_aabb storage (Iso_cuboid_3.of_bbox b)).mul R).coeff k j =
      ((Iso_cuboid_3.of_bbox b).vertex k).x * R.coeff 0 j +
      ((Iso_cuboid_3.of_bbox b).vertex k).y * R.coeff 1 j +
      ((Iso_cuboid_3.of_bbox b).vertex k).z * R.coeff 2 j := by
  obtain ⟨h0, h1, h2⟩ := fill_aabb_coeff storage (Iso_cuboid_3.of_bbox b) k hk
  rw [mul_coeff_three _ _ (fill_aabb_shape storage _).2, h0, h1, h2]

/-! ### A point of a box as a convex combination of the corners -/

theorem interval_weight (lo hi x : ℚ) (h1 : lo ≤ x) (h2 : x ≤ hi) :
    ∃ a : ℚ, 0 ≤ a ∧ a ≤ 1 ∧ (1 - a) * lo + a * hi = x := by
  by_cases h : lo = hi
  · refine ⟨0, le_refl _, zero_le_one, ?_⟩
    have hx : x = lo := le_antisymm (h ▸ h2) h1
    rw [hx]; ring
  · have hlt : lo < hi := lt_of_le_of_ne (le_trans h1 h2) h
    have hpos : 0 < hi - lo := sub_pos.mpr hlt
    refine ⟨(x - lo) / (hi - lo), div_nonneg (by linarith) hpos.le,
      (div_le_one hpos).mpr (by linarith), ?_⟩
    field_simp
    ring

/-- A point between the lowest and the highest corner of a cuboid is a convex combination of
its 8 vertices. -/
theorem cuboid_weights (ic : Iso_cuboid_3) (q : Point)
    (hx : ic.pmin.x ≤ q.x ∧ q.x ≤ ic.pmax.x) (hy : ic.pmin.y ≤ q.y ∧ q.y ≤ ic.pmax.y)
    (hz : ic.pmin.z ≤ q.z ∧ q.z ≤ ic.pmax.z) :
    ∃ w : Nat → ℚ, (∀ k, 0 ≤ w k) ∧ ∑ k in Finset.range 8, w k = 1 ∧
      ∑ k in Finset.range 8, w k * (ic.vertex k).x = q.x ∧
      ∑ k in Finset.range 8, w k * (ic.vertex k).y = q.y ∧
      ∑ k in Finset.range 8, w k * (ic.vertex k).z = q.z := by
  obtain ⟨a, ha0, ha1, hax⟩ := interval_weight _ _ _ hx.1 hx.2
  obtain ⟨b, hb0, hb1, hby⟩ := interval_weight _ _ _ hy.1 hy.2
  obtain ⟨c, hc0, hc1, hcz⟩ := interval_weight _ _ _ hz.1 hz.2
  have ha2 : 0 ≤ 1 - a := by linarith
  have hb2 : 0 ≤ 1 - b := by linarith
  have hc2 : 0 ≤ 1 - c := by linarith
  refine ⟨fun k =>
    ((Iso_cuboid_3.mk ⟨1 - a, 1 - b, 1 - c⟩ ⟨a, b, c⟩).vertex k).x *
    ((Iso_cuboid_3.mk ⟨1 - a, 1 - b, 1 - c⟩ ⟨a, b, c⟩).vertex k).y *
    ((Iso_cuboid_3.mk ⟨1 - a, 1 - b, 1 - c⟩ ⟨a, b, c⟩).vertex k).z, ?_, ?_, ?_, ?_, ?_⟩
  · intro k
    simp only [Iso_cuboid_3.vertex]
    split <;> exact mul_nonneg (mul_nonneg (by assumption) (by assumption)) (by assumption)
  · simp only [Finset.sum_range_succ, Finset.sum_range_zero, Iso_cuboid_3.vertex]
    norm_num
    ring
  · simp only [Finset.sum_range_succ, Finset.sum_range_zero, Iso_cuboid_3.vertex]
    norm_num
    linear_combination hax
  · simp only [Finset.sum_range_succ, Finset.sum_range_zero, Iso_cuboid_3.vertex]
    norm_num
    linear_combination hby
  · simp only [Finset.sum_range_succ, Finset.sum_range_zero, Iso_cuboid_3.vertex]
    norm_num
    linear_combination hcz

/-- Every input point is a convex combination of the 8 rows written by `post_processing`. -/
theorem enclosure_weights (storage : Storage) (points R : Mat) (b : Bbox_3)
    (hcols : points.cols = 3) (hR : orthonormal R) (hb : rotated_bbox points R = some b)
    (i : Nat) (hi : i < points.rows) :
    ∃ w : Nat → ℚ, (∀ k, 0 ≤ w k) ∧ ∑ k in Finset.range 8, w k = 1 ∧
      ∀ j, j < 3 →
        ∑ k in Finset.range 8,
          w k * ((fill_aabb storage (Iso_cuboid_3.of_bbox b)).mul R).coeff k j =
        points.coeff i j := by
  obtain ⟨b1, b2, b3, b4, b5, b6⟩ := rotated_bbox_bounds points R b hb i hi
  obtain ⟨w, hw0, hw1, hwx, hwy, hwz⟩ := cuboid_weights (Iso_cuboid_3.of_bbox b)
    ((rotate_points points R).row_point i) ⟨b1, b2⟩ ⟨b3, b4⟩ ⟨b5, b6⟩
  refine ⟨w, hw0, hw1, ?_⟩
  intro j hj
  have hback := rotate_points_mul_coeff points R hcols hR i j hj
  rw [mul_coeff_three _ _ (show (rotate_points points R).cols = 3 from hR.1)] at hback
  have hsum : ∑ k in Finset.range 8,
      w k * ((fill_aabb storage (Iso_cuboid_3.of_bbox b)).mul R).coeff k j =
      (∑ k in Finset.range 8, w k * ((Iso_cuboid_3.of_bbox b).vertex k).x) * R.coeff 0 j +
      (∑ k in Finset.range 8, w k * ((Iso_cuboid_3.of_bbox b).vertex k).y) * R.coeff 1 j +
      (∑ k in Finset.range 8, w k * ((Iso_cuboid_3.of_bbox b).vertex k).z) * R.coeff 2 j := by
    rw [Finset.sum_mul, Finset.sum_mul, Finset.sum_mul, ← Finset.sum_add_distrib,
      ← Finset.sum_add_distrib]
    apply Finset.sum_congr rfl
    intro k hk
    rw [obb_coeff storage R b k j (Finset.mem_range.mp hk)]
    ring
  rw [hsum, hwx, hwy, hwz]
  exact hback

/-- The weights over `Finset.range 8` place the point in the convex hull of the 8 rows. -/
theorem mem_convexHull_rows (box : Mat) (p : Fin 3 → ℚ) (w : Nat → ℚ) (hw0 : ∀ k, 0 ≤ w k)
    (hw1 : ∑ k in Finset.range 8, w k = 1)
    (hp : ∀ j : Fin 3, ∑ k in Finset.range 8, w k * box.coeff k j = p j) :
    p ∈ convexHull ℚ (Set.range fun k : Fin 8 => box.row_vec k) := by
  apply mem_convexHull_of_exists_fintype (fun k : Fin 8 => w k) (fun k : Fin 8 => box.row_vec k)
  · intro k; exact hw0 k
  · rw [Fin.sum_univ_eq_sum_range (fun k => w k) 8]; exact hw1
  · intro k; exact ⟨k, rfl⟩
  · funext j
    rw [Finset.sum_apply]
    simp only [Pi.smul_apply, smul_eq_mul, Mat.row_vec]
    rw [Fin.sum_univ_eq_sum_range (fun k => w k * box.coeff k j) 8]
    exact hp j

/-! ### The shape of the box written -/

/-- The rows written by `post_processing` are a corner plus the subset sums of three pairwise
orthogonal edges, whose lengths are the extents of the box of step 2. -/
theorem edge_vectors (storage : Storage) (R : Mat) (b : Bbox_3) (hR : orthonormal R)
    (hx : b.xmin ≤ b.xmax) (hy : b.ymin ≤ b.ymax) (hz : b.zmin ≤ b.zmax) :
    ∃ c0 e1 e2 e3 : Fin 3 → ℚ,
      dot e1 e2 = 0 ∧ dot e1 e3 = 0 ∧ dot e2 e3 = 0 ∧
      ((fill_aabb storage (Iso_cuboid_3.of_bbox b)).mul R).row_vec 0 = c0 ∧
      ((fill_aabb storage (Iso_cuboid_3.of_bbox b)).mul R).row_vec 1 = c0 + e1 ∧
      ((fill_aabb storage (Iso_cuboid_3.of_bbox b)).mul R).row_vec 2 = c0 + e1 + e2 ∧
      ((fill_aabb storage (Iso_cuboid_3.of_bbox b)).mul R).row_vec 3 = c0 + e2 ∧
      ((fill_aabb storage (Iso_cuboid_3.of_bbox b)).mul R).row_vec 4 = c0 + e2 + e3 ∧
      ((fill_aabb storage (Iso_cuboid_3.of_bbox b)).mul R).row_vec 5 = c0 + e3 ∧
      ((fill_aabb storage (Iso_cuboid_3.of_bbox b)).mul R).row_vec 6 = c0 + e1 + e3 ∧
      ((fill_aabb storage (Iso_cuboid_3.of_bbox b)).mul R).row_vec 7 = c0 + e1 + e2 + e3 ∧
      Real.sqrt ((dot e1 e1 : ℚ) : ℝ) = ((b.xmax - b.xmin : ℚ) : ℝ) ∧
      Real.sqrt ((dot e2 e2 : ℚ) : ℝ) = ((b.ymax - b.ymin : ℚ) : ℝ) ∧
      Real.sqrt ((dot e3 e3 : ℚ) : ℝ) = ((b.zmax - b.zmin : ℚ) : ℝ) := by
  have r00 := orthonormal_rows R hR 0 0 (by decide) (by decide)
  have r11 := orthonormal_rows R hR 1 1 (by decide) (by decide)
  have r22 := orthonormal_rows R hR 2 2 (by decide) (by decide)
  have r01 := orthonormal_rows R hR 0 1 (by decide) (by decide)
  have r02 := orthonormal_rows R hR 0 2 (by decide) (by decide)
  have r12 := orthonormal_rows R hR 1 2 (by decide) (by decide)
  simp only [if_true, if_false, show (0 : ℕ) ≠ 1 by decide, show (0 : ℕ) ≠ 2 by decide,
    show (1 : ℕ) ≠ 2 by decide] at r00 r11 r22 r01 r02 r12
  have hsqrt : ∀ (v d : ℚ), 0 ≤ d → v = d ^ 2 → Real.sqrt ((v : ℚ) : ℝ) = ((d : ℚ) : ℝ) := by
    intro v d hd hv
    rw [hv]
    push_cast
    exact Real.sqrt_sq (by exact_mod_cast hd)
  have hrow : ∀ k, k < 8 → ∀ j : Fin 3,
      ((fill_aabb storage (Iso_cuboid_3.of_bbox b)).mul R).row_vec k j =
        ((Iso_cuboid_3.of_bbox b).vertex k).x * R.coeff 0 j +
        ((Iso_cuboid_3.of_bbox b).vertex k).y * R.coeff 1 j +
        ((Iso_cuboid_3.of_bbox b).vertex k).z * R.coeff 2 j :=
    fun k hk j => obb_coeff storage R b k j hk
  refine ⟨fun j => b.xmin * R.coeff 0 j + b.ymin * R.coeff 1 j + b.zmin * R.coeff 2 j,
    fun j => (b.xmax - b.xmin) * R.coeff 0 j, fun j => (b.ymax - b.ymin) * R.coeff 1 j,
    fun j => (b.zmax - b.zmin) * R.coeff 2 j, ?_, ?_, ?_, ?_, ?_, ?_, ?_, ?_, ?_, ?_, ?_,
    ?_, ?_, ?_⟩
  · simp only [dot, Fin.val_zero, Fin.val_one, Fin.val_two]
    linear_combination (b.xmax - b.xmin) * (b.ymax - b.ymin) * r01
  · simp only [dot, Fin.val_zero, Fin.val_one, Fin.val_two]
    linear_combination (b.xmax - b.xmin) * (b.zmax - b.zmin) * r02
  · simp only [dot, Fin.val_zero, Fin.val_one, Fin.val_two]
    linear_combination (b.ymax - b.ymin) * (b.zmax - b.zmin) * r12
  · funext j
    rw [hrow 0 (by decide) j]
    simp only [Iso_cuboid_3.vertex, Iso_cuboid_3.of_bbox, Pi.add_apply]
  · funext j
    rw [hrow 1 (by decide) j]
    simp only [Iso_cuboid_3.vertex, Iso_cuboid_3.of_bbox, Pi.add_apply]
    ring
  · funext j
    rw [hrow 2 (by decide) j]
    simp only [Iso_cuboid_3.vertex, Iso_cuboid_3.of_bbox, Pi.add_apply]
    ring
  · funext j
    rw [hrow 3 (by decide) j]
    simp only [Iso_cuboid_3.vertex, Iso_cuboid_3.of_bbox, Pi.add_apply]
    ring
  · funext j
    rw [hrow 4 (by decide) j]
    simp only [Iso_cuboid_3.vertex, Iso_cuboid_3.of_bbox, Pi.add_apply]
    ring
  · funext j
    rw [hrow 5 (by decide) j]
    simp only [Iso_cuboid_3.vertex, Iso_cuboid_3.of_bbox, Pi.add_apply]
    ring
  · funext j
    rw [hrow 6 (by decide) j]
    simp only [Iso_cuboid_3.vertex, Iso_cuboid_3.of_bbox, Pi.add_apply]
    ring
  · funext j
    rw [hrow 7 (by decide) j]
    simp only [Iso_cuboid_3.vertex, Iso_cuboid_3.of_bbox, Pi.add_apply]
    ring
  · apply hsqrt _ _ (sub_nonneg.mpr hx)
    simp only [dot, Fin.val_zero, Fin.val_one, Fin.val_two]
    linear_combination (b.xmax - b.xmin) ^ 2 * r00
  · apply hsqrt _ _ (sub_nonneg.mpr hy)
    simp only [dot, Fin.val_zero, Fin.val_one, Fin.val_two]
    linear_combination (b.ymax - b.ymin) ^ 2 * r11
  · apply hsqrt _ _ (sub_nonneg.mpr hz)
    simp only [dot, Fin.val_zero, Fin.val_one, Fin.val_two]
    linear_combination (b.zmax - b.zmin) ^ 2 * r22

/-! ### Identity rotation and concrete inputs -/

theorem to_v_points_rotate_identity (points R : Mat) (hcols : points.cols = 3)
    (hI : ∀ i, i < 3 → ∀ j, j < 3 → R.coeff i j = if i = j then 1 else 0) :
    to_v_points (rotate_points points R) = to_v_points points := by
  unfold to_v_points
  rw [(rotate_points_shape points R).1]
  apply List.map_congr_left
  intro i _
  rw [rotate_points_coeff _ _ hcols, rotate_points_coeff _ _ hcols,
    rotate_points_coeff _ _ hcols]
  simp [hI 0 (by decide) 0 (by decide), hI 0 (by decide) 1 (by decide),
    hI 0 (by decide) 2 (by decide), hI 1 (by decide) 0 (by decide),
    hI 1 (by decide) 1 (by decide), hI 1 (by decide) 2 (by decide),
    hI 2 (by decide) 0 (by decide), hI 2 (by decide) 1 (by decide),
    hI 2 (by decide) 2 (by decide)]

theorem mul_identity_coeff (A R : Mat) (hA : A.cols = 3)
    (hI : ∀ i, i < 3 → ∀ j, j < 3 → R.coeff i j = if i = j then 1 else 0) (i j : Nat)
    (hj : j < 3) : (A.mul R).coeff i j = A.coeff i j := by
  rw [mul_coeff_three _ _ hA, hI 0 (by decide) j hj, hI 1 (by decide) j hj,
    hI 2 (by decide) j hj]
  interval_cases j <;> simp

theorem aabb_row_point (storage : Storage) (b : Bbox_3) (k : Fin 8) :
    (fill_aabb storage (Iso_cuboid_3.of_bbox b)).row_point k = b.corner (corner_label k) := by
  obtain ⟨h0, h1, h2⟩ := fill_aabb_coeff storage (Iso_cuboid_3.of_bbox b) k k.isLt
  unfold Mat.row_point
  rw [h0, h1, h2]
  fin_cases k <;> rfl

theorem corner_label_bijective : Function.Bijective corner_label := by
  decide

theorem orthonormal_identity3 : orthonormal identity3 := by
  refine ⟨rfl, rfl, ?_⟩
  intro i hi j hj
  interval_cases i <;> interval_cases j <;>
    simp [Mat.mul, Mat.transpose, identity3, Finset.sum_range_succ]

theorem orthonormal_tilt : orthonormal tilt := by
  refine ⟨rfl, rfl, ?_⟩
  intro i hi j hj
  interval_cases i <;> interval_cases j <;>
    norm_num [Mat.mul, Mat.transpose, tilt, Finset.sum_range_succ]

theorem identity3_coeff (i : Nat) (_hi : i < 3) (j : Nat) (_hj : j < 3) :
    identity3.coeff i j = if i = j then 1 else 0 :=
  rfl

theorem to_v_points_unit_cube : to_v_points unit_cube_mat = unit_cube := by
  simp [to_v_points, unit_cube_mat, fill_matrix, unit_cube, Mat.coeffRef_assign, Mat.resize,
    List.range_succ]

theorem rotated_bbox_unit_cube :
    rotated_bbox unit_cube_mat identity3 = some ⟨0, 0, 0, 1, 1, 1⟩ := by
  unfold rotated_bbox
  rw [to_v_points_rotate_identity _ _ rfl identity3_coeff, to_v_points_unit_cube]
  simp [bbox_3, unit_cube, Bbox_3.add, Point.bbox]

/-- With `R` the identity, the rows written are the corners of the box, in the order of
`corner_label`. -/
theorem post_processing_identity_rows (storage : Storage) (points R obb : Mat) (b : Bbox_3)
    (hcols : points.cols = 3) (hR : R.rows = 3 ∧ R.cols = 3) (hobb : obb.rows = 8 ∧ obb.cols = 3)
    (hb : rotated_bbox points R = some b)
    (hI : ∀ i, i < 3 → ∀ j, j < 3 → R.coeff i j = if i = j then 1 else 0) :
    (List.range 8).map (fun k => (post_processing storage points R obb).2.row_point k) =
      [b.corner (false, false, false), b.corner (true, false, false),
        b.corner (true, true, false), b.corner (false, true, false),
        b.corner (false, true, true), b.corner (false, false, true),
        b.corner (true, false, true), b.corner (true, true, true)] := by
  rw [post_processing_ok storage points R obb b hcols hR.1 hR.2 hobb.1 hobb.2 hb]
  have hrow : ∀ k : Fin 8,
      ((fill_aabb storage (Iso_cuboid_3.of_bbox b)).mul R).row_point k =
        b.corner (corner_label k) := by
    intro k
    rw [← aabb_row_point storage _ k]
    unfold Mat.row_point
    rw [mul_identity_coeff _ _ (fill_aabb_shape storage _).2 hI _ 0 (by decide),
      mul_identity_coeff _ _ (fill_aabb_shape storage _).2 hI _ 1 (by decide),
      mul_identity_coeff _ _ (fill_aabb_shape storage _).2 hI _ 2 (by decide)]
  have h0 := hrow 0
  have h1 := hrow 1
  have h2 := hrow 2
  have h3 := hrow 3
  have h4 := hrow 4
  have h5 := hrow 5
  have h6 := hrow 6
  have h7 := hrow 7
  simp only [List.range_succ, List.range_zero, List.nil_append, List.cons_append, List.map_cons,
    List.map_nil]
  rw [show ((0 : Fin 8) : ℕ) = 0 from rfl] at h0
  rw [show ((1 : Fin 8) : ℕ) = 1 from rfl] at h1
  rw [show ((2 : Fin 8) : ℕ) = 2 from rfl] at h2
  rw [show ((3 : Fin 8) : ℕ) = 3 from rfl] at h3
  rw [show ((4 : Fin 8) : ℕ) = 4 from rfl] at h4
  rw [show ((5 : Fin 8) : ℕ) = 5 from rfl] at h5
  rw [show ((6 : Fin 8) : ℕ) = 6 from rfl] at h6
  rw [show ((7 : Fin 8) : ℕ) = 7 from rfl] at h7
  rw [h0, h1, h2, h3, h4, h5, h6, h7]
  rfl

theorem unit_cube_coordinates (q : Point) (hq : q ∈ unit_cube) :
    (q.x = 0 ∨ q.x = 1) ∧ (q.y = 0 ∨ q.y = 1) ∧ (q.z = 0 ∨ q.z = 1) := by
  simp only [unit_cube, List.mem_cons, List.mem_singleton, List.not_mem_nil, or_false] at hq
  rcases hq with h | h | h | h | h | h | h | h <;> subst h <;> simp

/-- The box of any list with exactly the corners of the unit cube as members. -/
theorem bbox_3_of_unit_cube (l : List Point) (b : Bbox_3) (h : bbox_3 l = some b)
    (hmem : ∀ q, q ∈ l ↔ q ∈ unit_cube) : b = ⟨0, 0, 0, 1, 1, 1⟩ := by
  have hlo := bbox_3_bounds l b h ⟨0, 0, 0⟩ ((hmem _).mpr (by simp [unit_cube]))
  have hhi := bbox_3_bounds l b h ⟨1, 1, 1⟩ ((hmem _).mpr (by simp [unit_cube]))
  obtain ⟨⟨q1, m1, e1⟩, ⟨q2, m2, e2⟩, ⟨q3, m3, e3⟩, ⟨q4, m4, e4⟩, ⟨q5, m5, e5⟩,
    ⟨q6, m6, e6⟩⟩ := bbox_3_attained l b h
  have c1 := unit_cube_coordinates q1 ((hmem _).mp m1)
  have c2 := unit_cube_coordinates q2 ((hmem _).mp m2)
  have c3 := unit_cube_coordinates q3 ((hmem _).mp m3)
  have c4 := unit_cube_coordinates q4 ((hmem _).mp m4)
  have c5 := unit_cube_coordinates q5 ((hmem _).mp m5)
  have c6 := unit_cube_coordinates q6 ((hmem _).mp m6)
  simp only at hlo hhi
  have x0 : b.xmin = 0 := by rcases c1.1 with h | h <;> linarith
  have x1 : b.xmax = 1 := by rcases c2.1 with h | h <;> linarith
  have y0 : b.ymin = 0 := by rcases c3.2.1 with h | h <;> linarith
  have y1 : b.ymax = 1 := by rcases c4.2.1 with h | h <;> linarith
  have z0 : b.zmin = 0 := by rcases c5.2.2 with h | h <;> linarith
  have z1 : b.zmax = 1 := by rcases c6.2.2 with h | h <;> linarith
  cases b
  simp only at x0 x1 y0 y1 z0 z1
  subst x0 x1 y0 y1 z0 z1
  rfl

/-- With `R` the identity and the corners of the unit cube as input rows, in any order, the
rows written are those corners again, in the order of `corner_label`. -/
theorem post_processing_cube_rows (storage : Storage) (points R obb : Mat)
    (hrows : 1 ≤ points.rows) (hcols : points.cols = 3) (hR : R.rows = 3 ∧ R.cols = 3)
    (hobb : obb.rows = 8 ∧ obb.cols = 3)
    (hI : ∀ i, i < 3 → ∀ j, j < 3 → R.coeff i j = if i = j then 1 else 0)
    (hmem : ∀ q, q ∈ to_v_points points ↔ q ∈ unit_cube) :
    ((List.range 8).map fun k => (post_processing storage points R obb).2.row_point k).Perm
      unit_cube := by
  obtain ⟨b, hb⟩ := rotated_bbox_isSome points R hrows
  have hb2 : bbox_3 (to_v_points points) = some b := by
    rw [← to_v_points_rotate_identity points R hcols hI]; exact hb
  have hcube := bbox_3_of_unit_cube _ b hb2 hmem
  rw [post_processing_identity_rows storage points R obb b hcols hR hobb hb hI, hcube]
  decide

theorem post_processing_unit_cube (storage : Storage) :
    ((List.range 8).map fun k =>
      (post_processing storage unit_cube_mat identity3 obb_slot).2.row_point k).Perm
        unit_cube :=
  post_processing_cube_rows storage unit_cube_mat identity3 obb_slot (by decide) rfl ⟨rfl, rfl⟩
    ⟨rfl, rfl⟩ identity3_coeff (fun q => by rw [to_v_points_unit_cube])

theorem rotated_bbox_one_point :
    rotated_bbox one_point_mat identity3 = some ⟨1, 2, 3, 1, 2, 3⟩ := by
  unfold rotated_bbox
  rw [to_v_points_rotate_identity _ _ rfl identity3_coeff]
  simp [to_v_points, one_point_mat, fill_matrix, Mat.coeffRef_assign, Mat.resize,
    List.range_succ, bbox_3, Point.bbox]

/-! ## The claims on `evolution` -/

/-- C4, as the code has it: when the best fitness is 0 in every generation no generation
passes the stall test (`|0 - 0| < 1e-2 * 0` is false), the stall counter stays 0 and the loop
runs all `max_generations` generations. -/
theorem evolution_zero_fitness_runs_to_cap {Pop : Type} (c : Collaborators Pop) (points : Mat)
    (max_generations : Nat)
    (hzero : ∀ t, t < max_generations → fitness_seq c points t = 0) :
    (∀ t, t < max_generations → ¬ stalled_generation (fitness_seq c points) t) ∧
    (evolution_run c points max_generations).stale = 0 ∧
    (evolution_run c points max_generations).generations = max_generations := by
  have hns : ∀ t, t < max_generations → ¬ stalled_generation (fitness_seq c points) t := by
    intro t ht
    unfold stalled_generation stalled
    rw [hzero t ht]
    cases t with
    | zero => simp [prev_of]
    | succ t => simp [prev_of, hzero t (by omega)]
  have hcount : ∀ g, g ≤ max_generations → stall_count (fitness_seq c points) g = 0 := by
    intro g
    induction g with
    | zero => intro _; rfl
    | succ g ih =>
      intro hg
      rw [stall_count, if_neg (hns g (by omega))]
      exact ih (by omega)
  have hex : executed (fitness_seq c points) max_generations = max_generations :=
    executed_eq_of_forall _ _ (fun g hg => by rw [hcount g (by omega)]; decide)
  obtain ⟨hG, hS, _, _⟩ := evolution_run_invariant c points max_generations
  refine ⟨hns, ?_, ?_⟩
  · rw [hS, hG, hex]; exact hcount _ (le_refl _)
  · rw [hG, hex]

/-- Witness of `evolution_zero_fitness_runs_to_cap`: the scripted run with fitness 0 in every
generation and the cap 100. -/
theorem evolution_zero_fitness_runs_to_cap_witness :
    (∀ t, t < 100 → fitness_seq (scripted fitness_zero) three_points_mat t = 0) ∧
    (evolution_run (scripted fitness_zero) three_points_mat 100).stale = 0 ∧
    (evolution_run (scripted fitness_zero) three_points_mat 100).generations = 100 :=
  ⟨fun t _ => fitness_seq_scripted fitness_zero three_points_mat t,
    (evolution_zero_fitness_runs_to_cap (scripted fitness_zero) three_points_mat 100
      (fun t _ => fitness_seq_scripted fitness_zero three_points_mat t)).2⟩

/-- C4 fails as stated: with best fitness 0 in every generation and `max_generations = 6`, no
generation passes the stall test and the loop runs 6 generations, not 5, with the counter
still at 0. -/
theorem evolution_zero_fitness_counterexample :
    (∀ t, fitness_seq (scripted fitness_zero) three_points_mat t = 0) ∧
    ¬ stalled_generation (fitness_seq (scripted fitness_zero) three_points_mat) 0 ∧
    ¬ stalled_generation (fitness_seq (scripted fitness_zero) three_points_mat) 1 ∧
    (evolution_run (scripted fitness_zero) three_points_mat 6).stale = 0 ∧
    (evolution_run (scripted fitness_zero) three_points_mat 6).generations = 6 ∧
    (evolution_run (scripted fitness_zero) three_points_mat 6).generations ≠ 5 := by
  obtain ⟨hG, hS, _, _⟩ := evolution_run_invariant (scripted fitness_zero) three_points_mat 6
  rw [fitness_seq_scripted_eq] at hG hS
  rw [executed_fitness_zero_six] at hG
  rw [hG] at hS
  have hS0 : stall_count fitness_zero 6 = 0 := by
    norm_num [stall_count, stalled_generation, stalled, prev_of, fitness_zero, tolerance]
  rw [hS0] at hS
  refine ⟨fitness_seq_scripted fitness_zero three_points_mat, ?_, ?_, hS, hG, ?_⟩
  · rw [fitness_seq_scripted_eq]
    norm_num [stalled_generation, stalled, prev_of, fitness_zero, tolerance]
  · rw [fitness_seq_scripted_eq]
    norm_num [stalled_generation, stalled, prev_of, fitness_zero, tolerance]
  · rw [hG]; decide

/-- C5: for every `max_generations` and every point matrix with at least 3 rows and exactly
3 columns (and a 3 x 3 slot `R`), `evolution` ends normally with `R` the best candidate of the
final population; that population is the initial one after as many generations (a genetic
step, then the refinement of every member) as were executed, and that number is at most
`max_generations`. -/
theorem evolution_terminates_with_best {Pop : Type} (c : Collaborators Pop) (R points : Mat)
    (max_generations : Nat) (hrows : 3 ≤ points.rows) (hcols : points.cols = 3)
    (hR : R.rows = 3 ∧ R.cols = 3) :
    evolution c R points max_generations =
      (Status.ok, c.get_best (evolution_run c points max_generations).pop points) ∧
    (evolution_run c points max_generations).generations ≤ max_generations ∧
    (evolution_run c points max_generations).pop =
      (generation c points)^[(evolution_run c points max_generations).generations]
        (c.make_population 50) ∧
    (evolution_run c points max_generations).stale ≤ 5 := by
  obtain ⟨hG, hS, hP, _⟩ := evolution_run_invariant c points max_generations
  refine ⟨?_, ?_, hP, ?_⟩
  · simp [evolution, hrows, hcols, hR.1, hR.2]
  · rw [hG]; exact executed_le _ _
  · rw [hS, hG]; exact stall_count_executed_le _ _

/-- Witness of `evolution_terminates_with_best`: three points, the cap 100 and a scripted
population. -/
theorem evolution_terminates_with_best_witness :
    3 ≤ three_points_mat.rows ∧ three_points_mat.cols = 3 ∧
    (evolution (scripted fitness_drop) identity3 three_points_mat 100).1 = Status.ok ∧
    (evolution_run (scripted fitness_drop) three_points_mat 100).generations ≤ 100 :=
  ⟨by decide, by decide,
    by rw [(evolution_terminates_with_best (scripted fitness_drop) identity3 three_points_mat 100
      (by decide) (by decide) ⟨rfl, rfl⟩).1],
    (evolution_terminates_with_best (scripted fitness_drop) identity3 three_points_mat 100
      (by decide) (by decide) ⟨rfl, rfl⟩).2.1⟩

/-- C7, as the code has it: in double arithmetic the stall test is unchanged by scaling
the fitness values by a power of two `2^m` as long as nothing leaves the normal range: when
every fitness value `a t` is a double and `a t`, the difference `new - prev` and the product
`tolerance * new` are 0 or keep, before and after scaling, a magnitude of at least `2^-1022`
that rounds below `2^1024`, the scaled sequence is `2^m * a t` exactly, every generation has
the same stall decision, and the counter and the number of executed generations agree under
every cap. -/
theorem evolution_stall_rule_scale_double (a : Nat → ℚ) (m : ℤ)
    (hrep : ∀ t, round_to_double (a t) = a t)
    (hval : ∀ t, in_range_scaled m (a t))
    (hdiff : ∀ t, in_range_scaled m (a t - prev_of a t))
    (hprod : ∀ t, in_range_scaled m (round_to_double tolerance * a t)) :
    (∀ t, scaled_double (Double.finite ((2 : ℚ) ^ m)) (double_sequence a) t =
      Double.finite ((2 : ℚ) ^ m * a t)) ∧
    (∀ t,
      stalled_double
          (prev_of_double (scaled_double (Double.finite ((2 : ℚ) ^ m)) (double_sequence a)) t)
          (scaled_double (Double.finite ((2 : ℚ) ^ m)) (double_sequence a) t) =
        stalled_double (prev_of_double (double_sequence a) t) (double_sequence a t)) ∧
    (∀ n,
      (evolution_run_double (scaled_double (Double.finite ((2 : ℚ) ^ m)) (double_sequence a))
          n).stale = (evolution_run_double (double_sequence a) n).stale ∧
      (evolution_run_double (scaled_double (Double.finite ((2 : ℚ) ^ m)) (double_sequence a))
          n).generations = (evolution_run_double (double_sequence a) n).generations) := by
  have hs : ∀ t, scaled_double (Double.finite ((2 : ℚ) ^ m)) (double_sequence a) t =
      Double.finite ((2 : ℚ) ^ m * a t) := by
    intro t
    simp only [scaled_double, double_sequence, Double.mul]
    rw [(of_rat_scale m (a t) (hval t)).2, hrep t]
  have hdec : ∀ t,
      stalled_double
          (prev_of_double (scaled_double (Double.finite ((2 : ℚ) ^ m)) (double_sequence a)) t)
          (scaled_double (Double.finite ((2 : ℚ) ^ m)) (double_sequence a) t) =
        stalled_double (prev_of_double (double_sequence a) t) (double_sequence a t) := by
    intro t
    cases t with
    | zero =>
      have h := stalled_double_scale m 0 (a 0) (hdiff 0) (hprod 0)
      rw [mul_zero] at h
      simp only [prev_of_double, hs 0]
      exact h
    | succ t =>
      have h := stalled_double_scale m (a t) (a (t + 1)) (hdiff (t + 1)) (hprod (t + 1))
      simp only [prev_of_double, hs t, hs (t + 1)]
      exact h
  refine ⟨hs, hdec, ?_⟩
  intro n
  exact evolution_loop_double_congr (double_sequence a)
    (scaled_double (Double.finite ((2 : ℚ) ^ m)) (double_sequence a)) hdec n 0 0

/-- Witness of `evolution_stall_rule_scale_double`: the constant fitness 1 scaled by
`2^10 = 1024`. -/
theorem evolution_stall_rule_scale_double_witness :
    (∀ t : Nat, round_to_double ((fun _ => (1 : ℚ)) t) = (fun _ => (1 : ℚ)) t) ∧
    (∀ t : Nat, in_range_scaled 10 ((fun _ => (1 : ℚ)) t)) ∧
    (∀ t : Nat, in_range_scaled 10 ((fun _ => (1 : ℚ)) t - prev_of (fun _ => (1 : ℚ)) t)) ∧
    (∀ t : Nat, in_range_scaled 10 (round_to_double tolerance * (fun _ => (1 : ℚ)) t)) ∧
    (evolution_run_double
        (scaled_double (Double.finite ((2 : ℚ) ^ (10 : ℤ))) (double_sequence fun _ => 1))
        100).generations = (evolution_run_double (double_sequence fun _ => 1) 100).generations ∧
    (evolution_run_double (double_sequence fun _ => 1) 100).generations = 6 :=
  have hrep : ∀ t : Nat, round_to_double ((fun _ => (1 : ℚ)) t) = (fun _ => (1 : ℚ)) t :=
    fun _ => round_to_double_one
  have hval : ∀ t : Nat, in_range_scaled 10 ((fun _ => (1 : ℚ)) t) := fun _ => in_range_scaled_one
  have hdiff : ∀ t : Nat,
      in_range_scaled 10 ((fun _ => (1 : ℚ)) t - prev_of (fun _ => (1 : ℚ)) t) := fun t => by
    cases t with
    | zero => simp only [prev_of, sub_zero]; exact in_range_scaled_one
    | succ t => simp only [prev_of, sub_self]; exact Or.inl rfl
  have hprod : ∀ t : Nat, in_range_scaled 10 (round_to_double tolerance * (fun _ => (1 : ℚ)) t) :=
    fun _ => in_range_scaled_tolerance
  ⟨hrep, hval, hdiff, hprod,
    ((evolution_stall_rule_scale_double (fun _ => 1) 10 hrep hval hdiff hprod).2.2 100).2,
    by simp [evolution_run_double, evolution_loop_double, double_sequence, stalled_double_first,
      stalled_double_steady]⟩

/-- C7 fails as stated.  With every best fitness 1 the test holds from the second generation
on and the loop is left after 6 generations; scaled by `k = 2^-1074` the product
`tolerance * new` underflows to 0, no generation stalls and the loop runs all 100
generations.  Without underflow: for the doubles `0x1.fcdc28f5c28f6p-1` and `1.00390625`
the second generation stalls, and for the two values times 3 (the first product is rounded)
it does not. -/
theorem evolution_stall_rule_scale_counterexample :
    (0 : ℚ) < (2 : ℚ) ^ (-1074 : ℤ) ∧
    stalled_double (prev_of_double fitness_one 1) (fitness_one 1) = true ∧
    stalled_double
        (prev_of_double (scaled_double (Double.finite ((2 : ℚ) ^ (-1074 : ℤ))) fitness_one) 1)
        (scaled_double (Double.finite ((2 : ℚ) ^ (-1074 : ℤ))) fitness_one 1) = false ∧
    (evolution_run_double fitness_one 100).generations = 6 ∧
    (evolution_run_double fitness_one 100).stale = 5 ∧
    (evolution_run_double (scaled_double (Double.finite ((2 : ℚ) ^ (-1074 : ℤ))) fitness_one)
      100).generations = 100 ∧
    (evolution_run_double (scaled_double (Double.finite ((2 : ℚ) ^ (-1074 : ℤ))) fitness_one)
      100).stale = 0 ∧
    stalled_double (prev_of_double fitness_step 1) (fitness_step 1) = true ∧
    stalled_double (prev_of_double (scaled_double (Double.finite 3) fitness_step) 1)
      (scaled_double (Double.finite 3) fitness_step 1) = false := by
  have htiny : ∀ prev t, stalled_double prev
      (scaled_double (Double.finite ((2 : ℚ) ^ (-1074 : ℤ))) fitness_one t) = false := by
    intro prev t
    rw [scaled_fitness_one_tiny]
    exact stalled_double_tiny prev
  obtain ⟨h1, h2⟩ := evolution_loop_double_never
    (scaled_double (Double.finite ((2 : ℚ) ^ (-1074 : ℤ))) fitness_one) htiny 100
    { prev_fit_value := Double.finite 0, stale := 0, generations := 0 } (by decide)
  refine ⟨by positivity, stalled_double_steady, htiny _ 1, ?_, ?_, ?_, ?_, stalled_double_step,
    ?_⟩
  · simp [evolution_run_double, evolution_loop_double, fitness_one, stalled_double_first,
      stalled_double_steady]
  · simp [evolution_run_double, evolution_loop_double, fitness_one, stalled_double_first,
      stalled_double_steady]
  · rw [evolution_run_double, h2]
  · rw [evolution_run_double, h1]
  · simp only [prev_of_double]
    rw [scaled_fitness_step_zero, scaled_fitness_step_one]
    exact stalled_double_step_scaled

/-- C10: when the best fitness values are positive, the first generation does not pass the
stall test (`prev_fit_value` is still 0), so a run that is left with the counter at 5 has
executed at least 6 generations, and so has every run with `max_generations >= 6`. -/
theorem evolution_positive_fitness_six_generations {Pop : Type} (c : Collaborators Pop)
    (points : Mat) (hpos : ∀ t, 0 < fitness_seq c points t) :
    ¬ stalled_generation (fitness_seq c points) 0 ∧
    (∀ max_generations, (evolution_run c points max_generations).stale = 5 →
      6 ≤ (evolution_run c points max_generations).generations) ∧
    (∀ max_generations, 6 ≤ max_generations →
      6 ≤ (evolution_run c points max_generations).generations) := by
  have hcount := stall_count_succ_le_of_pos (fitness_seq c points) (hpos 0)
  refine ⟨not_stalled_zero_of_pos _ (hpos 0), ?_, ?_⟩
  · intro n h5
    obtain ⟨_, hS, _, _⟩ := evolution_run_invariant c points n
    rw [hS] at h5
    cases hgen : (evolution_run c points n).generations with
    | zero => rw [hgen] at h5; simp [stall_count] at h5
    | succ g =>
      rw [hgen] at h5
      have := hcount g
      omega
  · intro n hn
    obtain ⟨hG, _, _, _⟩ := evolution_run_invariant c points n
    have h6 : executed (fitness_seq c points) 6 = 6 := by
      apply executed_eq_of_forall
      intro g hg
      cases g with
      | zero => simp [stall_count]
      | succ g => have := hcount g; omega
    rw [hG]
    calc 6 = executed (fitness_seq c points) 6 := h6.symm
      _ ≤ executed (fitness_seq c points) n := executed_mono _ hn

/-- Witness of `evolution_positive_fitness_six_generations`: the scripted run on
`fitness_drop`, whose values are 100 and 50. -/
theorem evolution_positive_fitness_six_generations_witness :
    (∀ t, 0 < fitness_seq (scripted fitness_drop) three_points_mat t) ∧
    6 ≤ (evolution_run (scripted fitness_drop) three_points_mat 100).generations :=
  have hpos : ∀ t, 0 < fitness_seq (scripted fitness_drop) three_points_mat t := fun t => by
    rw [fitness_seq_scripted]; unfold fitness_drop; split <;> norm_num
  ⟨hpos,
    (evolution_positive_fitness_six_generations (scripted fitness_drop) three_points_mat
      hpos).2.2 100 (by decide)⟩

/-! ## The claims on `post_processing` and `find_obb` -/

/-- C1: for a point matrix with at least one row and an orthonormal `R`, `post_processing`
ends normally with an 8 x 3 matrix; every input point lies in the convex hull of its 8 rows,
and the rotated point lies, coordinate by coordinate, between the bounds of the box of the
rotated points (its minimum and maximum corner). -/
theorem post_processing_encloses_points (storage : Storage) (points R obb : Mat)
    (hrows : 1 ≤ points.rows) (hcols : points.cols = 3) (hR : orthonormal R)
    (hobb : obb.rows = 8 ∧ obb.cols = 3) :
    (post_processing storage points R obb).1 = Status.ok ∧
    (post_processing storage points R obb).2.rows = 8 ∧
    (post_processing storage points R obb).2.cols = 3 ∧
    ∃ b, rotated_bbox points R = some b ∧
      ∀ i, i < points.rows →
        points.row_vec i ∈ convexHull ℚ
          (Set.range fun k : Fin 8 => (post_processing storage points R obb).2.row_vec k) ∧
        b.xmin ≤ (rotate_points points R).coeff i 0 ∧
        (rotate_points points R).coeff i 0 ≤ b.xmax ∧
        b.ymin ≤ (rotate_points points R).coeff i 1 ∧
        (rotate_points points R).coeff i 1 ≤ b.ymax ∧
        b.zmin ≤ (rotate_points points R).coeff i 2 ∧
        (rotate_points points R).coeff i 2 ≤ b.zmax := by
  obtain ⟨b, hb⟩ := rotated_bbox_isSome points R hrows
  have hpp := post_processing_ok storage points R obb b hcols hR.1 hR.2.1 hobb.1 hobb.2 hb
  rw [hpp]
  refine ⟨rfl, ?_, hR.2.1, b, hb, ?_⟩
  · exact (fill_aabb_shape storage (Iso_cuboid_3.of_bbox b)).1
  intro i hi
  refine ⟨?_, rotated_bbox_bounds points R b hb i hi⟩
  obtain ⟨w, hw0, hw1, hw⟩ := enclosure_weights storage points R b hcols hR hb i hi
  exact mem_convexHull_rows _ _ w hw0 hw1 (fun j => hw j j.isLt)

/-- Witness of `post_processing_encloses_points`: three points and the rotation `tilt`. -/
theorem post_processing_encloses_points_witness :
    1 ≤ three_points_mat.rows ∧ three_points_mat.cols = 3 ∧ orthonormal tilt ∧
    (post_processing Storage.preallocated three_points_mat tilt obb_slot).1 = Status.ok ∧
    ∃ b, rotated_bbox three_points_mat tilt = some b ∧
      ∀ i, i < three_points_mat.rows →
        three_points_mat.row_vec i ∈ convexHull ℚ
          (Set.range fun k : Fin 8 =>
            (post_processing Storage.preallocated three_points_mat tilt obb_slot).2.row_vec k) ∧
        b.xmin ≤ (rotate_points three_points_mat tilt).coeff i 0 ∧
        (rotate_points three_points_mat tilt).coeff i 0 ≤ b.xmax ∧
        b.ymin ≤ (rotate_points three_points_mat tilt).coeff i 1 ∧
        (rotate_points three_points_mat tilt).coeff i 1 ≤ b.ymax ∧
        b.zmin ≤ (rotate_points three_points_mat tilt).coeff i 2 ∧
        (rotate_points three_points_mat tilt).coeff i 2 ≤ b.zmax :=
  ⟨by decide, rfl, orthonormal_tilt,
    (post_processing_encloses_points Storage.preallocated three_points_mat tilt obb_slot
      (by decide) rfl orthonormal_tilt ⟨rfl, rfl⟩).1,
    (post_processing_encloses_points Storage.preallocated three_points_mat tilt obb_slot
      (by decide) rfl orthonormal_tilt ⟨rfl, rfl⟩).2.2.2⟩

/-- C2: for a point matrix with at least 3 rows and an orthonormal `R`, the 8 rows written by
`post_processing` are a corner `c0` plus the 8 subset sums of three pairwise orthogonal edge
vectors `e1`, `e2`, `e3`, whose lengths are the x, y and z extents of the box of the rotated
points. -/
theorem post_processing_rectangular_box (storage : Storage) (points R obb : Mat)
    (hrows : 3 ≤ points.rows) (hcols : points.cols = 3) (hR : orthonormal R)
    (hobb : obb.rows = 8 ∧ obb.cols = 3) :
    (post_processing storage points R obb).1 = Status.ok ∧
    ∃ b, rotated_bbox points R = some b ∧
    ∃ c0 e1 e2 e3 : Fin 3 → ℚ,
      dot e1 e2 = 0 ∧ dot e1 e3 = 0 ∧ dot e2 e3 = 0 ∧
      (post_processing storage points R obb).2.row_vec 0 = c0 ∧
      (post_processing storage points R obb).2.row_vec 1 = c0 + e1 ∧
      (post_processing storage points R obb).2.row_vec 2 = c0 + e1 + e2 ∧
      (post_processing storage points R obb).2.row_vec 3 = c0 + e2 ∧
      (post_processing storage points R obb).2.row_vec 4 = c0 + e2 + e3 ∧
      (post_processing storage points R obb).2.row_vec 5 = c0 + e3 ∧
      (post_processing storage points R obb).2.row_vec 6 = c0 + e1 + e3 ∧
      (post_processing storage points R obb).2.row_vec 7 = c0 + e1 + e2 + e3 ∧
      Real.sqrt ((dot e1 e1 : ℚ) : ℝ) = ((b.xmax - b.xmin : ℚ) : ℝ) ∧
      Real.sqrt ((dot e2 e2 : ℚ) : ℝ) = ((b.ymax - b.ymin : ℚ) : ℝ) ∧
      Real.sqrt ((dot e3 e3 : ℚ) : ℝ) = ((b.zmax - b.zmin : ℚ) : ℝ) := by
  obtain ⟨b, hb⟩ := rotated_bbox_isSome points R (by omega)
  have hpp := post_processing_ok storage points R obb b hcols hR.1 hR.2.1 hobb.1 hobb.2 hb
  rw [hpp]
  obtain ⟨b1, b2, b3, b4, b5, b6⟩ := rotated_bbox_bounds points R b hb 0 (by omega)
  exact ⟨rfl, b, hb, edge_vectors storage R b hR (le_trans b1 b2) (le_trans b3 b4)
    (le_trans b5 b6)⟩

/-- Witness of `post_processing_rectangular_box`: three points and the rotation `tilt`. -/
theorem post_processing_rectangular_box_witness :
    3 ≤ three_points_mat.rows ∧ three_points_mat.cols = 3 ∧ orthonormal tilt ∧
    (post_processing Storage.preallocated three_points_mat tilt obb_slot).1 = Status.ok ∧
    ∃ b, rotated_bbox three_points_mat tilt = some b ∧
    ∃ c0 e1 e2 e3 : Fin 3 → ℚ,
      dot e1 e2 = 0 ∧ dot e1 e3 = 0 ∧ dot e2 e3 = 0 ∧
      (post_processing Storage.preallocated three_points_mat tilt obb_slot).2.row_vec 0 = c0 ∧
      (post_processing Storage.preallocated three_points_mat tilt obb_slot).2.row_vec 1 =
        c0 + e1 ∧
      (post_processing Storage.preallocated three_points_mat tilt obb_slot).2.row_vec 2 =
        c0 + e1 + e2 ∧
      (post_processing Storage.preallocated three_points_mat tilt obb_slot).2.row_vec 3 =
        c0 + e2 ∧
      (post_processing Storage.preallocated three_points_mat tilt obb_slot).2.row_vec 4 =
        c0 + e2 + e3 ∧
      (post_processing Storage.preallocated three_points_mat tilt obb_slot).2.row_vec 5 =
        c0 + e3 ∧
      (post_processing Storage.preallocated three_points_mat tilt obb_slot).2.row_vec 6 =
        c0 + e1 + e3 ∧
      (post_processing Storage.preallocated three_points_mat tilt obb_slot).2.row_vec 7 =
        c0 + e1 + e2 + e3 ∧
      Real.sqrt ((dot e1 e1 : ℚ) : ℝ) = ((b.xmax - b.xmin : ℚ) : ℝ) ∧
      Real.sqrt ((dot e2 e2 : ℚ) : ℝ) = ((b.ymax - b.ymin : ℚ) : ℝ) ∧
      Real.sqrt ((dot e3 e3 : ℚ) : ℝ) = ((b.zmax - b.zmin : ℚ) : ℝ) :=
  ⟨by decide, rfl, orthonormal_tilt,
    post_processing_rectangular_box Storage.preallocated three_points_mat tilt obb_slot
      (by decide) rfl orthonormal_tilt ⟨rfl, rfl⟩⟩

/-- C8: for an orthonormal `R` and a point matrix `P` with 3 columns, `post_processing`
rotates with `P * R^T` in step 1 and writes `aabb * R` in step 3, where `aabb` holds the
corners of the box of the rows of `P * R^T`; right multiplication by `R`, the map of step 3,
undoes the rotation of step 1: `(P * R^T) * R` has the shape and the coefficients of `P`; and
the rows written, rotated as in step 1, are the axis-aligned corners again, so the rows
written are these corners in the original frame. -/
theorem post_processing_step3_inverts_step1 (storage : Storage) (points R obb : Mat)
    (hcols : points.cols = 3) (hR : orthonormal R) (hobb : obb.rows = 8 ∧ obb.cols = 3) :
    ((points.mul R.transpose).mul R).rows = points.rows ∧
    ((points.mul R.transpose).mul R).cols = points.cols ∧
    (∀ i, i < points.rows → ∀ j, j < 3 →
      ((points.mul R.transpose).mul R).coeff i j = points.coeff i j) ∧
    (1 ≤ points.rows → ∃ b, bbox_3 (to_v_points (points.mul R.transpose)) = some b) ∧
    (∀ b, bbox_3 (to_v_points (points.mul R.transpose)) = some b →
      post_processing storage points R obb =
        (Status.ok, (fill_aabb storage (Iso_cuboid_3.of_bbox b)).mul R) ∧
      ∀ k : Fin 8,
        ((post_processing storage points R obb).2.mul R.transpose).row_point k =
          b.corner (corner_label k)) := by
  refine ⟨rfl, ?_, ?_, ?_, ?_⟩
  · rw [hcols]; exact hR.2.1
  · intro i _ j hj
    exact rotate_points_mul_coeff points R hcols hR i j hj
  · intro hrows
    exact rotated_bbox_isSome points R hrows
  · intro b hb
    have hpp := post_processing_ok storage points R obb b hcols hR.1 hR.2.1 hobb.1 hobb.2 hb
    refine ⟨hpp, ?_⟩
    intro k
    rw [hpp, ← aabb_row_point storage b k]
    have hA := (fill_aabb_shape storage (Iso_cuboid_3.of_bbox b)).2
    have h0 := mul_rotate_points_coeff _ R hA hR k 0 (by decide)
    have h1 := mul_rotate_points_coeff _ R hA hR k 1 (by decide)
    have h2 := mul_rotate_points_coeff _ R hA hR k 2 (by decide)
    unfold rotate_points at h0 h1 h2
    unfold Mat.row_point
    rw [h0, h1, h2]

/-- Witness of `post_processing_step3_inverts_step1`: three points and the rotation `tilt`. -/
theorem post_processing_step3_inverts_step1_witness :
    three_points_mat.cols = 3 ∧ orthonormal tilt ∧ obb_slot.rows = 8 ∧ obb_slot.cols = 3 ∧
    ((three_points_mat.mul tilt.transpose).mul tilt).coeff 1 0 = three_points_mat.coeff 1 0 ∧
    ∃ b, bbox_3 (to_v_points (three_points_mat.mul tilt.transpose)) = some b ∧
      post_processing Storage.preallocated three_points_mat tilt obb_slot =
        (Status.ok, (fill_aabb Storage.preallocated (Iso_cuboid_3.of_bbox b)).mul tilt) ∧
      ∀ k : Fin 8,
        ((post_processing Storage.preallocated three_points_mat tilt obb_slot).2.mul
          tilt.transpose).row_point k = b.corner (corner_label k) :=
  have h := post_processing_step3_inverts_step1 Storage.preallocated three_points_mat tilt
    obb_slot rfl orthonormal_tilt ⟨rfl, rfl⟩
  ⟨rfl, orthonormal_tilt, rfl, rfl, h.2.2.1 1 (by decide) 0 (by decide),
    (h.2.2.2.1 (by decide)).elim fun b hb => ⟨b, hb, h.2.2.2.2 b hb⟩⟩

/-- C9: for a point matrix with at least one row, the box of step 2 holds the componentwise
minima and maxima of the rotated points, and the 8 rows of `aabb` are the 8 combinations of
these bounds, row `k` being the combination `corner_label k`, a bijection; with `R` the
identity the rows written are those corners for the box of the points themselves, and for
the corners of the unit cube as input, in any order, they are these 8 corners in another
order. -/
theorem post_processing_aabb_corners (storage : Storage) (points R obb : Mat)
    (hrows : 1 ≤ points.rows) (hcols : points.cols = 3) (hR : R.rows = 3 ∧ R.cols = 3)
    (hobb : obb.rows = 8 ∧ obb.cols = 3) :
    (∃ b, rotated_bbox points R = some b ∧
      (∀ i, i < points.rows →
        b.xmin ≤ (rotate_points points R).coeff i 0 ∧
        (rotate_points points R).coeff i 0 ≤ b.xmax ∧
        b.ymin ≤ (rotate_points points R).coeff i 1 ∧
        (rotate_points points R).coeff i 1 ≤ b.ymax ∧
        b.zmin ≤ (rotate_points points R).coeff i 2 ∧
        (rotate_points points R).coeff i 2 ≤ b.zmax) ∧
      ((∃ i, i < points.rows ∧ (rotate_points points R).coeff i 0 = b.xmin) ∧
        (∃ i, i < points.rows ∧ (rotate_points points R).coeff i 0 = b.xmax) ∧
        (∃ i, i < points.rows ∧ (rotate_points points R).coeff i 1 = b.ymin) ∧
        (∃ i, i < points.rows ∧ (rotate_points points R).coeff i 1 = b.ymax) ∧
        (∃ i, i < points.rows ∧ (rotate_points points R).coeff i 2 = b.zmin) ∧
        (∃ i, i < points.rows ∧ (rotate_points points R).coeff i 2 = b.zmax)) ∧
      (fill_aabb storage (Iso_cuboid_3.of_bbox b)).rows = 8 ∧
      (fill_aabb storage (Iso_cuboid_3.of_bbox b)).cols = 3 ∧
      (∀ k : Fin 8,
        (fill_aabb storage (Iso_cuboid_3.of_bbox b)).row_point k = b.corner (corner_label k)) ∧
      post_processing storage points R obb =
        (Status.ok, (fill_aabb storage (Iso_cuboid_3.of_bbox b)).mul R) ∧
      ((∀ i, i < 3 → ∀ j, j < 3 → R.coeff i j = if i = j then 1 else 0) →
        bbox_3 (to_v_points points) = some b ∧
        (∀ k : Fin 8,
          (post_processing storage points R obb).2.row_point k = b.corner (corner_label k)) ∧
        ((∀ q, q ∈ to_v_points points ↔ q ∈ unit_cube) →
          ((List.range 8).map fun k =>
            (post_processing storage points R obb).2.row_point k).Perm unit_cube))) ∧
    Function.Bijective corner_label ∧
    ((List.range 8).map fun k =>
      (post_processing storage unit_cube_mat identity3 obb_slot).2.row_point k).Perm
        unit_cube := by
  obtain ⟨b, hb⟩ := rotated_bbox_isSome points R hrows
  have hpp := post_processing_ok storage points R obb b hcols hR.1 hR.2 hobb.1 hobb.2 hb
  refine ⟨⟨b, hb, rotated_bbox_bounds points R b hb, rotated_bbox_attained points R b hb,
    (fill_aabb_shape storage _).1, (fill_aabb_shape storage _).2, aabb_row_point storage b,
    hpp, ?_⟩, corner_label_bijective, ?_⟩
  · intro hI
    refine ⟨?_, ?_, ?_⟩
    · rw [← to_v_points_rotate_identity points R hcols hI]; exact hb
    · intro k
      rw [hpp, ← aabb_row_point storage b k]
      unfold Mat.row_point
      rw [mul_identity_coeff _ _ (fill_aabb_shape storage _).2 hI _ 0 (by decide),
        mul_identity_coeff _ _ (fill_aabb_shape storage _).2 hI _ 1 (by decide),
        mul_identity_coeff _ _ (fill_aabb_shape storage _).2 hI _ 2 (by decide)]
    · exact post_processing_cube_rows storage points R obb hrows hcols hR hobb hI
  · exact post_processing_unit_cube storage

/-- Witness of `post_processing_aabb_corners`: the unit cube and the identity. -/
theorem post_processing_aabb_corners_witness :
    1 ≤ unit_cube_mat.rows ∧ unit_cube_mat.cols = 3 ∧ identity3.rows = 3 ∧
    identity3.cols = 3 ∧ obb_slot.rows = 8 ∧ obb_slot.cols = 3 ∧
    Function.Bijective corner_label ∧
    ((List.range 8).map fun k =>
      (post_processing Storage.dynamic unit_cube_mat identity3 obb_slot).2.row_point k).Perm
        unit_cube :=
  ⟨by decide, rfl, rfl, rfl, rfl, rfl,
    (post_processing_aabb_corners Storage.dynamic unit_cube_mat identity3 obb_slot (by decide)
      rfl ⟨rfl, rfl⟩ ⟨rfl, rfl⟩).2⟩

/-- C6, as the code has it: `find_obb` with fewer than 3 points fails at entry and leaves
`obb_points` as it was; `post_processing` with an output matrix that is not 8 x 3 fails and
leaves `obb` as it was; `post_processing` does not check the number of points, and with at
least one point and well-shaped arguments it ends normally and writes `aabb * R`. -/
theorem precondition_failures_write_nothing {Pop : Type} (c : Collaborators Pop)
    (convex_hull_3 : List Point → List Point) (storage : Storage) :
    (∀ (points obb_points : List Point) (use_ch : Bool), points.length < 3 →
      find_obb c convex_hull_3 points obb_points use_ch =
        (Status.assertion_failed, obb_points)) ∧
    (∀ points R obb : Mat, (obb.rows ≠ 8 ∨ obb.cols ≠ 3) →
      post_processing storage points R obb = (Status.assertion_failed, obb)) ∧
    (∀ points R obb : Mat, 1 ≤ points.rows → points.cols = 3 → R.rows = 3 → R.cols = 3 →
      obb.rows = 8 → obb.cols = 3 →
      ∃ b, rotated_bbox points R = some b ∧
        post_processing storage points R obb =
          (Status.ok, (fill_aabb storage (Iso_cuboid_3.of_bbox b)).mul R)) := by
  refine ⟨?_, ?_, ?_⟩
  · intro points obb_points use_ch h
    have h3 : ¬ 3 ≤ points.length := by omega
    simp [find_obb, h3]
  · intro points R obb h
    unfold post_processing
    rcases h with h | h
    · split_ifs <;> rfl
    · split_ifs <;> rfl
  · intro points R obb hrows hcols hRr hRc ho hoc
    obtain ⟨b, hb⟩ := rotated_bbox_isSome points R hrows
    exact ⟨b, hb, post_processing_ok storage points R obb b hcols hRr hRc ho hoc hb⟩

/-- Witness of `precondition_failures_write_nothing`: `find_obb` on two points, and
`post_processing` on a 4 x 3 output matrix. -/
theorem precondition_failures_write_nothing_witness :
    find_obb (scripted fitness_drop) id [⟨0, 0, 0⟩, ⟨1, 0, 0⟩] [⟨5, 5, 5⟩] false =
      (Status.assertion_failed, [⟨5, 5, 5⟩]) ∧
    post_processing Storage.dynamic three_points_mat identity3 short_slot =
      (Status.assertion_failed, short_slot) :=
  ⟨(precondition_failures_write_nothing (scripted fitness_drop) id Storage.dynamic).1 _ _ _
      (by decide),
    (precondition_failures_write_nothing (scripted fitness_drop) id Storage.dynamic).2.1 _ _ _
      (Or.inl (by decide))⟩

/-- C6 fails as stated: `post_processing` on a cloud of a single point, with a 3 x 3 `R` and
an 8 x 3 `obb`, ends normally and writes `obb` (coefficient (0, 0) becomes 1). -/
theorem post_processing_one_point_counterexample :
    one_point_mat.rows = 1 ∧ one_point_mat.cols = 3 ∧
    (post_processing Storage.preallocated one_point_mat identity3 obb_slot).1 = Status.ok ∧
    (post_processing Storage.preallocated one_point_mat identity3 obb_slot).2.coeff 0 0 = 1 ∧
    obb_slot.coeff 0 0 = 0 := by
  have hpp := post_processing_ok Storage.preallocated one_point_mat identity3 obb_slot _ rfl rfl
    rfl rfl rfl rotated_bbox_one_point
  rw [hpp]
  refine ⟨rfl, rfl, rfl, ?_, rfl⟩
  rw [mul_identity_coeff _ _ (fill_aabb_shape _ _).2 identity3_coeff _ 0 (by decide),
    (fill_aabb_coeff _ _ 0 (by decide)).1]
  rfl

end CGAL.Optimal_bounding_box
